import Mathlib

/-!
Verification of the rendering/reconciliation core of the repository:
`src/idom/core/hooks.py`, `src/idom/core/layout.py` and the semaphore-based
layout variant `src/src/py/idom/layout.py`, shallowly embedded in Lean.

Python dictionaries are modelled as insertion-ordered association lists,
Python sets as duplicate-free lists in insertion order, and `asyncio`
single-task cooperative execution as ordinary sequential state passing.
Recursion over dynamically produced element trees is bounded by explicit
fuel; fuel exhaustion is reported as a distinguished outcome that the
theorems exclude (the Python source has no such bound).
-/

namespace Spec2Proof

/-! ### Association-list operations mirroring Python `dict` semantics -/

/-- Lookup in an insertion-ordered association list (Python `d[k]` / `d.get(k)`). -/
def alookup {A : Type} : List (String × A) → String → Option A
  | [], _ => none
  | (k, v) :: rest, key => if k = key then some v else alookup rest key

/-- Key-membership test (Python `k in d`). -/
def amem {A : Type} (l : List (String × A)) (key : String) : Bool :=
  (alookup l key).isSome

/-- Insert-or-replace preserving insertion order (Python `d[k] = v`). -/
def aset {A : Type} : List (String × A) → String → A → List (String × A)
  | [], key, v => [(key, v)]
  | (k, w) :: rest, key, v =>
    if k = key then (k, v) :: rest else (k, w) :: aset rest key v

/-- Remove the entry with the given key (Python `del d[k]` / `d.pop(k)`). -/
def aremove {A : Type} : List (String × A) → String → List (String × A)
  | [], _ => []
  | (k, v) :: rest, key => if k = key then rest else (k, v) :: aremove rest key

/-- Keys in insertion order (Python `set(d)` / iteration order). -/
def akeys {A : Type} (l : List (String × A)) : List String := l.map Prod.fst

/-- Python `set.add`: append if not already present. -/
def saddElem (l : List String) (x : String) : List String :=
  if x ∈ l then l else l ++ [x]

/-! ### Embedding of `src/idom/core/hooks.py` — `use_state` and `set_state` (C1)

The hooks-level `use_state` stores a single mutable `_State` box in the
hook's slot list and returns `(current, set_state)`.  The box's `current`
attribute is modelled as `Option V` (unset before first render).  Crucially,
the `set_state` closure captures the *local variable* `current` of the
enclosing `use_state` call, which was read once during the render: the
source computes `next_state = new(current)` and compares
`next_state is not current` against that captured value, not against the
box's latest `state.current`.  Object identity `is` is modelled as equality
on the value type. -/

/-- Argument to the setter: a plain new value or an updater callable. -/
inductive SetArg (V : Type) where
  | val : V → SetArg V
  | upd : (V → V) → SetArg V

/-- Evaluate a setter argument against a value (`new(current)` when callable). -/
def SetArg.eval {V : Type} (a : SetArg V) (c : V) : V :=
  match a with
  | .val v => v
  | .upd f => f c

/-- Embedding of the `set_state` closure from `use_state`
(src/idom/core/hooks.py lines 61-68).  `captured` is the local `current`
read at render time; `boxVal` is the box's present `state.current`.
Returns the box value after the call and whether `update()` was invoked. -/
def set_state {V : Type} [DecidableEq V] (captured : V) (a : SetArg V) (boxVal : V) :
    V × Bool :=
  let next := a.eval captured
  if next ≠ captured then (next, true) else (boxVal, false)

/-- The body of `use_state` at render time (src/idom/core/hooks.py lines
53-59): read `state.current`, initializing it from `value` on the first
render.  Returns the value the render observes and the box afterwards. -/
def use_state_read {V : Type} (value : Sum V (Unit → V)) (box : Option V) :
    V × Option V :=
  match box with
  | some c => (c, some c)
  | none =>
    let c := match value with
      | .inl v => v
      | .inr f => f ()
    (c, some c)

/-- Fold a sequence of setter calls made between two renders over the state
box, all sharing the same render-time `captured` value, counting how many
calls invoked `update()`. -/
def applySetters {V : Type} [DecidableEq V] (captured : V) :
    V → List (SetArg V) → V × Nat
  | boxVal, [] => (boxVal, 0)
  | boxVal, a :: rest =>
    let r := set_state captured a boxVal
    let rec' := applySetters captured r.1 rest
    (rec'.1, (if r.2 then 1 else 0) + rec'.2)

/-- Claim-side semantics (the spec's words): each setter call applies its
argument against the most-recently-committed value, so the next render
observes the left fold of the calls. -/
def specFoldValue {V : Type} (c : V) (calls : List (SetArg V)) : V :=
  calls.foldl (fun acc a => a.eval acc) c

/-- Amended semantics: every call evaluates its argument against the
render-time value; the last call whose result differs from the render-time
value wins, starting from box value `b`. -/
def lastWinsFrom {V : Type} [DecidableEq V] (captured : V) (b : V)
    (calls : List (SetArg V)) : V :=
  calls.foldl (fun acc a => let n := a.eval captured; if n ≠ captured then n else acc) b

/-- Amended semantics: number of setter calls that commit and call
`update()`: those whose result (evaluated against the render-time value)
differs from the render-time value. -/
def changedCountAt {V : Type} [DecidableEq V] (captured : V)
    (calls : List (SetArg V)) : Nat :=
  (calls.filter (fun a => a.eval captured ≠ captured)).length

/-! ### Embedding of `LifeCycleHook` (src/idom/core/hooks.py lines 262-366)

State slots are modelled generically over a value type `V`.  The three
effect lists (`will_render`, `did_render`, `will_unmount`) hold arbitrary
Python callables in the source; the claims treated here register no
effects, so firing them is a no-op and the lists are not carried.  The
Layout-supplied `_schedule_render_callback` is modelled by counting its
invocations in `callbackCalls`. -/

structure LifeCycleHook (V : Type) where
  scheduleRenderLater : Bool
  renderIsScheduled : Bool
  isRendering : Bool
  renderedAtleastOnce : Bool
  currentStateIndex : Nat
  state : List V
  callbackCalls : Nat

/-- A freshly constructed hook (`LifeCycleHook.__init__`). -/
def LifeCycleHook.init (V : Type) : LifeCycleHook V :=
  { scheduleRenderLater := false
    renderIsScheduled := false
    isRendering := false
    renderedAtleastOnce := false
    currentStateIndex := 0
    state := []
    callbackCalls := 0 }

/-- `LifeCycleHook._schedule_render`: set the scheduled flag and invoke the
Layout-supplied scheduling callback. -/
def LifeCycleHook.schedule_render_prim {V : Type} (h : LifeCycleHook V) :
    LifeCycleHook V :=
  { h with renderIsScheduled := true, callbackCalls := h.callbackCalls + 1 }

/-- `LifeCycleHook.schedule_render` (lines 297-302). -/
def LifeCycleHook.schedule_render {V : Type} (h : LifeCycleHook V) :
    LifeCycleHook V :=
  if h.isRendering then
    { h with scheduleRenderLater := true }
  else if ¬h.renderIsScheduled then
    h.schedule_render_prim
  else
    h

/-- `LifeCycleHook.use_state` (lines 304-315).  Returns the slot value, the
hook afterwards, and how many times the factory was invoked (0 or 1);
`none` models the `IndexError` raised when a later render makes more
`use_state` calls than slots exist. -/
def LifeCycleHook.use_state {V : Type} (h : LifeCycleHook V) (f : Unit → V) :
    Option (V × LifeCycleHook V × Nat) :=
  if ¬h.renderedAtleastOnce then
    let result := f ()
    some (result,
      { h with state := h.state ++ [result],
               currentStateIndex := h.currentStateIndex + 1 }, 1)
  else
    match h.state.get? h.currentStateIndex with
    | none => none
    | some result =>
      some (result, { h with currentStateIndex := h.currentStateIndex + 1 }, 0)

/-- `LifeCycleHook.element_will_render` (lines 321-330): clear the scheduled
flag, mark rendering; `will_render` effects fire and are cleared (no
effects are registered in the claims' scenarios). -/
def LifeCycleHook.element_will_render {V : Type} (h : LifeCycleHook V) :
    LifeCycleHook V :=
  { h with renderIsScheduled := false, isRendering := true }

/-- `LifeCycleHook.element_did_render` (lines 332-342): fire and clear
`did_render` effects (none registered), mark rendering over, if a deferred
schedule was requested invoke `_schedule_render` (note: the source never
clears `_schedule_render_later`), mark rendered-at-least-once, and reset
the state-slot ordinal to zero. -/
def LifeCycleHook.element_did_render {V : Type} (h : LifeCycleHook V) :
    LifeCycleHook V :=
  let h1 := { h with isRendering := false }
  let h2 := if h1.scheduleRenderLater then h1.schedule_render_prim else h1
  { h2 with renderedAtleastOnce := true, currentStateIndex := 0 }

/-- Run a component body that makes one `LifeCycleHook.use_state` call per
listed factory, in order.  Returns the values returned to the body, the
per-call factory invocation counts, and the hook afterwards. -/
def runBody {V : Type} :
    List (Unit → V) → LifeCycleHook V → Option (List V × List Nat × LifeCycleHook V)
  | [], h => some ([], [], h)
  | f :: fs, h =>
    match h.use_state f with
    | none => none
    | some (v, h', n) =>
      match runBody fs h' with
      | none => none
      | some (vs, ns, h'') => some (v :: vs, n :: ns, h'')

/-- One full render cycle of a hook: `element_will_render`, the component
body's `use_state` calls, `element_did_render`. -/
def renderCycle {V : Type} (factories : List (Unit → V)) (h : LifeCycleHook V) :
    Option (List V × List Nat × LifeCycleHook V) :=
  match runBody factories h.element_will_render with
  | none => none
  | some (vs, ns, h') => some (vs, ns, h'.element_did_render)

/-! ### Data model for `src/idom/core/layout.py`

`AbstractElement` (src/idom/core/element.py) and `EventHandler`
(src/idom/core/events.py) are not under `src/`; they are modelled from the
spec where used.  An element has a stable string id and a render operation;
successive renders of the same element may produce different output, so the
render operation takes the number of completed renders of that element.
Model nodes are mappings with optional `tagName`, `children`, `attributes`
and `eventHandlers` fields. -/

/-- Modelled from the spec: `EventHandler` (src/idom/core/events.py is not
under src/) is an identity-bearing wrapper whose unique id, derived from its
identity, serves as the wire-level target key; `serialize()` yields that
key. -/
structure EventHandler where
  hid : String
deriving DecidableEq, Repr

mutual

/-- A Python value appearing inside a model tree: a sub-element, a mapping
node, or any other value together with its `str()` rendering. -/
inductive PVal where
  | elem : Elem → PVal
  | node : PNode → PVal
  | prim : String → PVal

/-- The `children` field's value: a list/tuple, or a single bare value. -/
inductive PChildren where
  | many : List PVal → PChildren
  | one : PVal → PChildren

/-- An attribute value: a non-callable value (with its final serialized
form), or a callable — either a bare callback or an `EventHandler`
instance. -/
inductive PAttr where
  | val : String → PAttr
  | cb : String → PAttr
  | handler : EventHandler → PAttr

/-- A mapping-shaped model node. -/
inductive PNode where
  | mk : (tagName : String) → (children : Option PChildren) →
      (attributes : Option (List (String × PAttr))) →
      (eventHandlers : Option (List (String × EventHandler))) → PNode

/-- The outcome of one call to an element's render operation: a mapping
node, another element, or a raised exception with its message. -/
inductive EOut where
  | node : PNode → EOut
  | elem : Elem → EOut
  | fail : String → EOut

/-- Modelled from the spec: an element (src/idom/core/element.py is not
under src/) has a process-unique stable id and a render operation; the
`Nat` argument is the number of render calls completed so far on this
element, letting scenarios give elements evolving output. -/
inductive Elem where
  | mk : (eid : String) → (render : Nat → EOut) → Elem

end

/-- The element's id. -/
def Elem.eid : Elem → String
  | .mk i _ => i

/-- The element's render operation at a given render count. -/
def Elem.renderAt : Elem → Nat → EOut
  | .mk _ r, n => r n

def PNode.tagName : PNode → String
  | .mk t _ _ _ => t

def PNode.children : PNode → Option PChildren
  | .mk _ c _ _ => c

def PNode.attributes : PNode → Option (List (String × PAttr))
  | .mk _ _ a _ => a

def PNode.eventHandlers : PNode → Option (List (String × EventHandler))
  | .mk _ _ _ e => e

/-! ### Loaded (wire-format) models -/

mutual

/-- A loaded child: exactly one of the three tagged wire forms. -/
inductive LChild where
  | obj : LNode → LChild
  | ref : String → LChild
  | strv : String → LChild

/-- A loaded model node: children tagged, callables stripped from
attributes, event handlers replaced by their serialized descriptors. -/
inductive LNode where
  | mk : (tagName : String) → (children : Option (List LChild)) →
      (attributes : Option (List (String × String))) →
      (eventHandlers : Option (List (String × String))) → LNode

end

def LNode.tagName : LNode → String
  | .mk t _ _ _ => t

def LNode.children : LNode → Option (List LChild)
  | .mk _ c _ _ => c

def LNode.eventHandlers : LNode → Option (List (String × String))
  | .mk _ _ _ e => e

/-! ### Layout state (core variant) -/

/-- An element-state record (`Layout._create_element_state`,
src/idom/core/layout.py lines 258-268).  `innerElements` is a Python set in
insertion order, `eventHandlers` the list of registered handler ids, and
`elementRef` the weak back-reference, modelled as always alive. -/
structure ElemRecord where
  parent : Option String
  innerElements : List String
  eventHandlers : List String
  elementRef : Elem

/-- The mutable per-Layout maps: `_element_state` and `_event_handlers`. -/
structure CoreLayout where
  elementState : List (String × ElemRecord)
  eventHandlers : List (String × EventHandler)
  rootId : String

/-- Bookkeeping outside the Layout: per-element completed render counts,
lifecycle calls observed (`mount`/`unmount`), handler invocations made by
`trigger`, elements whose render raised, and a counter for fresh
`EventHandler()` identities created when wrapping bare callables. -/
structure World where
  renderCounts : List (String × Nat)
  mounts : List String
  unmounts : List String
  handled : List (String × List String)
  failures : List String
  freshCounter : Nat
  mountedSet : List String

def World.init : World :=
  { renderCounts := [], mounts := [], unmounts := [], handled := [],
    failures := [], freshCounter := 0, mountedSet := [] }

/-- Invoke `element.render()`: look up and bump the element's completed
render count, recording a failure when the render raises. -/
def callRender (w : World) (e : Elem) : World × EOut :=
  let n := (alookup w.renderCounts e.eid).getD 0
  let out := e.renderAt n
  let w := { w with renderCounts := aset w.renderCounts e.eid (n + 1) }
  match out with
  | .fail _ => ({ w with failures := w.failures ++ [e.eid] }, out)
  | _ => (w, out)

/-- Python exceptions crossing the embedded code: a `RenderError` carrying
the chain of wrapped element ids (outermost first) and the base cause, a
`KeyError`, or exhaustion of the model's fuel (no Python counterpart). -/
inductive PyErr where
  | renderError : List String → String → PyErr
  | keyError : String → PyErr
  | fuelOut : PyErr
deriving DecidableEq, Repr

/-- Re-raise wrapped: `raise RenderError(f"Failed to render {element}")
from error` (src/idom/core/layout.py line 171).  Fuel exhaustion is kept
transparent so theorems can exclude it. -/
def wrapErr (eid : String) : PyErr → PyErr
  | .renderError chain cause => .renderError (eid :: chain) cause
  | .keyError k => .renderError [eid] ("KeyError: " ++ k)
  | .fuelOut => .fuelOut

/-! ### Element-state bookkeeping (core variant) -/

/-- `Layout._create_element_state` (src/idom/core/layout.py lines 258-269):
add the element to its parent's `inner_elements` when the parent is
tracked, install a fresh record, and `await element.mount(self)` (recorded
in the world). -/
def createElementState (st : CoreLayout) (w : World) (element : Elem)
    (parentId : Option String) : CoreLayout × World :=
  let eid := element.eid
  let st :=
    match parentId with
    | some p =>
      match alookup st.elementState p with
      | some prec =>
        let prec2 := { prec with innerElements := saddElem prec.innerElements eid }
        { st with elementState := aset st.elementState p prec2 }
      | none => st
    | none => st
  let rec0 : ElemRecord :=
    { parent := parentId, innerElements := [], eventHandlers := [],
      elementRef := element }
  let st := { st with elementState := aset st.elementState eid rec0 }
  (st, { w with mounts := w.mounts ++ [eid] })

/-- Delete each handler id from the handler registry (`del
self._event_handlers[handler_id]`); a missing id raises `KeyError` with the
registry as mutated so far. -/
def delHandlers (reg : List (String × EventHandler)) :
    List String → List (String × EventHandler) × Option PyErr
  | [] => (reg, none)
  | h :: rest =>
    if amem reg h then delHandlers (aremove reg h) rest
    else (reg, some (.keyError h))

/-- The parent-fixup step of `_delete_element_state` (src/idom/core/layout.py
lines 280-282): when the parent id is tracked, remove the deleted id from
its `inner_elements`; Python `set.remove` raises `KeyError` on absence. -/
def removeFromParent (st : CoreLayout) (parent : Option String) (eid : String) :
    CoreLayout × Option PyErr :=
  match parent with
  | some p =>
    match alookup st.elementState p with
    | some prec =>
      if eid ∈ prec.innerElements then
        let prec2 := { prec with innerElements := prec.innerElements.erase eid }
        ({ st with elementState := aset st.elementState p prec2 }, none)
      else (st, some (.keyError eid))
    | none => (st, none)
  | none => (st, none)

/-- `Layout._delete_element_state` (src/idom/core/layout.py lines 276-290)
together with its recursion over a record's `inner_elements`, expressed as
one fuel-structural worker so that concrete runs evaluate: task `.inl (eid,
unmount)` deletes one element's state — pop the record, remove the id from
the tracked parent's `inner_elements` (Python `set.remove`, raising on
absence), delete the record's handler ids from the registry, recursively
delete all inner elements (always with unmounting, since the `unmount`
flag is not passed on), and finally `unmount` the element itself when
requested (the weak back-reference is modelled as always alive); task
`.inr children` deletes a list of inner elements sequentially. -/
def deleteGo : Nat → CoreLayout → World → Sum (String × Bool) (List String) →
    CoreLayout × World × Option PyErr
  | _, st, w, .inr [] => (st, w, none)
  | 0, st, w, _ => (st, w, some .fuelOut)
  | fuel + 1, st, w, .inl (eid, unmount) =>
    match alookup st.elementState eid with
    | none => (st, w, some (.keyError eid))
    | some old =>
      match removeFromParent { st with elementState := aremove st.elementState eid }
          old.parent eid with
      | (st, some e) => (st, w, some e)
      | (st, none) =>
        match delHandlers st.eventHandlers old.eventHandlers with
        | (reg, some e) => ({ st with eventHandlers := reg }, w, some e)
        | (reg, none) =>
          match deleteGo fuel { st with eventHandlers := reg } w (.inr old.innerElements) with
          | (st, w, some e) => (st, w, some e)
          | (st, w, none) =>
            if unmount then (st, { w with unmounts := w.unmounts ++ [eid] }, none)
            else (st, w, none)
  | fuel + 1, st, w, .inr (c :: rest) =>
    match deleteGo fuel st w (.inl (c, true)) with
    | (st, w, some e) => (st, w, some e)
    | (st, w, none) => deleteGo fuel st w (.inr rest)

/-- `Layout._delete_element_state` entry point. -/
def deleteElementState (fuel : Nat) (st : CoreLayout) (w : World) (eid : String)
    (unmount : Bool) : CoreLayout × World × Option PyErr :=
  deleteGo fuel st w (.inl (eid, unmount))

/-- `Layout._reset_element_state` (src/idom/core/layout.py lines 271-274):
read the old parent, delete without unmounting, then recreate (which calls
`mount` again). -/
def resetElementState (fuel : Nat) (st : CoreLayout) (w : World) (element : Elem) :
    CoreLayout × World × Option PyErr :=
  match alookup st.elementState element.eid with
  | none => (st, w, some (.keyError element.eid))
  | some rec =>
    match deleteElementState fuel st w element.eid false with
    | (st, w, some e) => (st, w, some e)
    | (st, w, none) =>
      let p := createElementState st w element rec.parent
      (p.1, p.2, none)

/-! ### Loading models into wire form (core variant) -/

/-- Gather event handlers from the `eventHandlers` field and from callable
values under `attributes` (`Layout._load_event_handlers` lines 221-234):
bare callables are popped and wrapped in a fresh `EventHandler()` whose id
is the new wrapper's identity; `EventHandler` instances are popped and kept.
Returns the world (fresh-identity counter advanced), the gathered handler
mapping, and the surviving non-callable attributes when the field was
present. -/
def gatherNodeHandlers (w : World) (hfield : Option (List (String × EventHandler)))
    (afield : Option (List (String × PAttr))) :
    World × List (String × EventHandler) × Option (List (String × String)) :=
  let base := hfield.getD []
  match afield with
  | none => (w, base, none)
  | some attrs =>
    let r := attrs.foldl
      (fun (acc : World × List (String × EventHandler) × List (String × String)) kv =>
        match kv.2 with
        | .val s => (acc.1, acc.2.1, acc.2.2 ++ [(kv.1, s)])
        | .cb _ =>
          let fresh : EventHandler := ⟨"anon-" ++ toString acc.1.freshCounter⟩
          ({ acc.1 with freshCounter := acc.1.freshCounter + 1 },
           aset acc.2.1 kv.1 fresh, acc.2.2)
        | .handler h => (acc.1, aset acc.2.1 kv.1 h, acc.2.2))
      (w, base, [])
    (r.1, r.2.1, some r.2.2)

/-- Register gathered handlers (`Layout._load_event_handlers` lines
236-243): for each, store it in the handler registry under its id, append
the id to the owning element's record, and emit `event → serialize()`
(the serialized descriptor is the handler's id). -/
def registerHandlers (st : CoreLayout) (eid : String) :
    List (String × EventHandler) → List (String × String) × CoreLayout × Option PyErr
  | [] => ([], st, none)
  | (event, h) :: rest =>
    let st := { st with eventHandlers := aset st.eventHandlers h.hid h }
    match alookup st.elementState eid with
    | none => ([], st, some (.keyError eid))
    | some rec =>
      let rec2 := { rec with eventHandlers := rec.eventHandlers ++ [h.hid] }
      let st := { st with elementState := aset st.elementState eid rec2 }
      match registerHandlers st eid rest with
      | (ts, st, err) => ((event, h.hid) :: ts, st, err)

/-- The handler-extraction tail of `Layout._load_model` (src/idom/core/
layout.py lines 197-200): gather and register the node's handlers, then
assemble the loaded node with its converted children. -/
def loadFinish (st : CoreLayout) (w : World) (tag : String)
    (lc : Option (List LChild)) (attrs : Option (List (String × PAttr)))
    (handlers : Option (List (String × EventHandler))) (eid : String) :
    CoreLayout × World × Except PyErr (Sum LNode (List LChild)) :=
  let g := gatherNodeHandlers w handlers attrs
  match registerHandlers st eid g.2.1 with
  | (_ts, st, some e) => (st, g.1, .error e)
  | (targets, st, none) =>
    let ehField : Option (List (String × String)) :=
      if targets = [] then
        match handlers with
        | some _ => some []
        | none => none
      else some targets
    (st, g.1, .ok (.inl (LNode.mk tag lc g.2.2 ehField)))

/-- `Layout._load_model` (src/idom/core/layout.py lines 193-200) and
`Layout._load_model_children` (lines 202-216) as one fuel-structural
worker: task `.inl (node, eid)` copies the node, converts its `children`
field, extracts and registers event handlers, and sets the `eventHandlers`
field to the serialized descriptors when any were found; task `.inr
(children, eid)` tags an already-listified children sequence — mappings
load recursively as `obj`, elements become `ref` by id, anything else
becomes `str` of its stringification.  The recursion is bounded only by
the node's size, so any fuel beyond it is enough. -/
def loadGo : Nat → CoreLayout → World → Sum (PNode × String) (List PVal × String) →
    CoreLayout × World × Except PyErr (Sum LNode (List LChild))
  | _, st, w, .inr ([], _) => (st, w, .ok (.inr []))
  | 0, st, w, _ => (st, w, .error .fuelOut)
  | fuel + 1, st, w, .inl (PNode.mk tag children attrs handlers, eid) =>
    match children with
    | none => loadFinish st w tag none attrs handlers eid
    | some (.many vs) =>
      match loadGo fuel st w (.inr (vs, eid)) with
      | (st, w, .error e) => (st, w, .error e)
      | (st, w, .ok (.inr ls)) => loadFinish st w tag (some ls) attrs handlers eid
      | (st, w, .ok (.inl _)) => (st, w, .error .fuelOut)
    | some (.one v) =>
      match loadGo fuel st w (.inr ([v], eid)) with
      | (st, w, .error e) => (st, w, .error e)
      | (st, w, .ok (.inr ls)) => loadFinish st w tag (some ls) attrs handlers eid
      | (st, w, .ok (.inl _)) => (st, w, .error .fuelOut)
  | fuel + 1, st, w, .inr (c :: rest, eid) =>
    match c with
    | .node n =>
      match loadGo fuel st w (.inl (n, eid)) with
      | (st, w, .error e) => (st, w, .error e)
      | (st, w, .ok (.inr _)) => (st, w, .error .fuelOut)
      | (st, w, .ok (.inl ln)) =>
        match loadGo fuel st w (.inr (rest, eid)) with
        | (st, w, .error e) => (st, w, .error e)
        | (st, w, .ok (.inl _)) => (st, w, .error .fuelOut)
        | (st, w, .ok (.inr ls)) => (st, w, .ok (.inr (.obj ln :: ls)))
    | .elem e =>
      match loadGo fuel st w (.inr (rest, eid)) with
      | (st, w, .error er) => (st, w, .error er)
      | (st, w, .ok (.inl _)) => (st, w, .error .fuelOut)
      | (st, w, .ok (.inr ls)) => (st, w, .ok (.inr (.ref e.eid :: ls)))
    | .prim s =>
      match loadGo fuel st w (.inr (rest, eid)) with
      | (st, w, .error er) => (st, w, .error er)
      | (st, w, .ok (.inl _)) => (st, w, .error .fuelOut)
      | (st, w, .ok (.inr ls)) => (st, w, .ok (.inr (.strv s :: ls)))

/-- `Layout._load_model` entry point. -/
def loadModel (fuel : Nat) (st : CoreLayout) (w : World) (n : PNode) (eid : String) :
    CoreLayout × World × Except PyErr LNode :=
  match loadGo fuel st w (.inl (n, eid)) with
  | (st, w, .error e) => (st, w, .error e)
  | (st, w, .ok (.inl ln)) => (st, w, .ok ln)
  | (st, w, .ok (.inr _)) => (st, w, .error .fuelOut)

/-- `Layout._load_model_children` entry point. -/
def loadChildrenList (fuel : Nat) (st : CoreLayout) (w : World) (cs : List PVal)
    (eid : String) : CoreLayout × World × Except PyErr (List LChild) :=
  match loadGo fuel st w (.inr (cs, eid)) with
  | (st, w, .error e) => (st, w, .error e)
  | (st, w, .ok (.inr ls)) => (st, w, .ok ls)
  | (st, w, .ok (.inl _)) => (st, w, .error .fuelOut)

/-- The items the model walk enqueues for a mapping node
(`Layout._render_model` lines 184-189): a list/tuple of children is
extended onto the worklist; a single mapping or element child is appended;
anything else is ignored. -/
def visitChildren : PNode → List PVal
  | PNode.mk _ children _ _ =>
    match children with
    | none => []
    | some (.many vs) => vs
    | some (.one v) =>
      match v with
      | .node n => [.node n]
      | .elem e => [.elem e]
      | .prim _ => []

/-! ### The rendering walk (core variant) -/

/-- `Layout._render_element` (src/idom/core/layout.py lines 153-171) and
the explicit worklist of `Layout._render_model` (lines 173-191) as one
fuel-structural worker.  Task `.inl (element, parentId)`: reset or create
the element's state, invoke its render operation, wrap a bare element
result in a synthetic `div`, walk the model, and finally load and yield
the element's own model; any exception inside is re-raised as `RenderError
(Failed to render element)` chained from the cause.  Task `.inr (toVisit,
eid)`: the worklist walk — elements render recursively (parented to the
current element), mapping nodes enqueue their children, other values are
skipped.  Returns the `(id, model)` pairs yielded before completion or
failure, with the threaded layout and world. -/
def renderGo : Nat → CoreLayout → World →
    Sum (Elem × Option String) (List PVal × String) →
    List (String × LNode) × CoreLayout × World × Option PyErr
  | _, st, w, .inr ([], _) => ([], st, w, none)
  | 0, st, w, _ => ([], st, w, some .fuelOut)
  | fuel + 1, st, w, .inl (element, parentId) =>
    let eid := element.eid
    let r0 : CoreLayout × World × Option PyErr :=
      if amem st.elementState eid then resetElementState fuel st w element
      else
        let p := createElementState st w element parentId
        (p.1, p.2, none)
    match r0 with
    | (st, w, some e) => ([], st, w, some (wrapErr eid e))
    | (st, w, none) =>
      match callRender w element with
      | (w, .fail msg) => ([], st, w, some (.renderError [eid] msg))
      | (w, .elem e2) =>
        match renderGo fuel st w
            (.inr ([.node (PNode.mk "div" (some (.many [.elem e2])) none none)], eid)) with
        | (pairs, st, w, some e) => (pairs, st, w, some (wrapErr eid e))
        | (pairs, st, w, none) =>
          match loadModel fuel st w
              (PNode.mk "div" (some (.many [.elem e2])) none none) eid with
          | (st, w, .error e) => (pairs, st, w, some (wrapErr eid e))
          | (st, w, .ok lm) => (pairs ++ [(eid, lm)], st, w, none)
      | (w, .node nd) =>
        match renderGo fuel st w (.inr ([.node nd], eid)) with
        | (pairs, st, w, some e) => (pairs, st, w, some (wrapErr eid e))
        | (pairs, st, w, none) =>
          match loadModel fuel st w nd eid with
          | (st, w, .error e) => (pairs, st, w, some (wrapErr eid e))
          | (st, w, .ok lm) => (pairs ++ [(eid, lm)], st, w, none)
  | fuel + 1, st, w, .inr (v :: rest, eid) =>
    match v with
    | .elem e =>
      match renderGo fuel st w (.inl (e, some eid)) with
      | (pairs, st, w, some er) => (pairs, st, w, some er)
      | (pairs, st, w, none) =>
        match renderGo fuel st w (.inr (rest, eid)) with
        | (ps, st, w, err) => (pairs ++ ps, st, w, err)
    | .node n => renderGo fuel st w (.inr (rest ++ visitChildren n, eid))
    | .prim _ => renderGo fuel st w (.inr (rest, eid))

/-- `Layout._render_element` entry point. -/
def renderElementCore (fuel : Nat) (st : CoreLayout) (w : World) (element : Elem)
    (parentId : Option String) :
    List (String × LNode) × CoreLayout × World × Option PyErr :=
  renderGo fuel st w (.inl (element, parentId))

/-! ### LayoutUpdate and the per-update driver (core variant) -/

/-- `LayoutUpdate` (src/idom/core/layout.py lines 25-33): source element
id, id → new model mapping, deleted ids. -/
structure LayoutUpdate where
  src : String
  new : List (String × LNode)
  old : List String

/-- A raised `RenderError` as observed by `Layout.render`'s caller: the
wrap chain (outermost element first), the base cause, and the
`partial_render` attribute attached by `Layout._render`. -/
structure RenderFailure where
  chain : List String
  cause : String
  partialRender : Option LayoutUpdate

/-- The outcome of one `Layout.render()` call. -/
inductive RenderResult where
  | ok : LayoutUpdate → RenderResult
  | rfail : RenderFailure → RenderResult
  | exc : PyErr → RenderResult
  | wouldBlock : RenderResult

/-- `Layout._element_parent` (lines 248-256): the tracked parent id, `none`
for the untracked root, `KeyError` for any other untracked element. -/
def elementParentOf (st : CoreLayout) (e : Elem) : Except PyErr (Option String) :=
  match alookup st.elementState e.eid with
  | some rec => .ok rec.parent
  | none => if e.eid ≠ st.rootId then .error (.keyError e.eid) else .ok none

/-- `Layout._render` (src/idom/core/layout.py lines 126-151): snapshot the
tracked ids, collect the yielded `(id, model)` pairs into `new`, compute
`old` as the snapshot ids no longer tracked, and either return the
`LayoutUpdate` or attach it to the raised `RenderError` as
`partial_render`. -/
def coreRenderOne (fuel : Nat) (st : CoreLayout) (w : World) (element : Elem) :
    CoreLayout × World × RenderResult :=
  let current := akeys st.elementState
  match elementParentOf st element with
  | .error e => (st, w, .exc e)
  | .ok parent =>
    match renderElementCore fuel st w element parent with
    | (pairs, st', w', err) =>
      let newd := pairs.foldl (fun d p => aset d p.1 p.2) []
      let old := current.filter (fun k => ¬ amem st'.elementState k)
      let update := LayoutUpdate.mk element.eid newd old
      match err with
      | none => (st', w', .ok update)
      | some (.renderError ch c) => (st', w', .rfail ⟨ch, c, some update⟩)
      | some e => (st', w', .exc e)

/-- A core `Layout` instance together with the world and its `FutureQueue`
of pending render computations (each `update` call queues an independent
`_render(element)` coroutine; `render()` awaits the next one). -/
structure CoreSt where
  layout : CoreLayout
  world : World
  queue : List Elem

/-- `Layout.__init__` (src/idom/core/layout.py lines 103-110): empty state
and handler maps, a fresh queue, then `self.update(root)`. -/
def coreInit (root : Elem) : CoreSt :=
  { layout := { elementState := [], eventHandlers := [], rootId := root.eid }
    world := World.init
    queue := [root] }

/-- `Layout.update` (lines 120-121): queue a `_render(element)` coroutine. -/
def coreUpdate (element : Elem) (s : CoreSt) : CoreSt :=
  { s with queue := s.queue ++ [element] }

/-- `Layout.render` (lines 123-124): await the next queued render; blocks
when nothing is queued (single-task cooperative execution would suspend
forever). -/
def coreRender (fuel : Nat) (s : CoreSt) : CoreSt × RenderResult :=
  match s.queue with
  | [] => (s, .wouldBlock)
  | e :: rest =>
    match coreRenderOne fuel s.layout s.world e with
    | (st, w, out) => ({ layout := st, world := w, queue := rest }, out)

/-- `Layout.trigger` (src/idom/core/layout.py lines 112-118): invoke the
handler only when the target id is registered; otherwise silently ignore
the event. -/
def coreTrigger (st : CoreLayout) (w : World) (target : String)
    (data : List String) : World :=
  match alookup st.eventHandlers target with
  | some h => { w with handled := w.handled ++ [(h.hid, data)] }
  | none => w

/-! ### The semaphore-coalescing Layout variant (src/src/py/idom/layout.py)

The spec's design notes designate this variant's coalescing strategy as the
canonical behavior.  Differences from the core variant embedded above: a
plain update list drained whole by each `render()` pass, an
`asyncio.Semaphore(1)` released (at most back to 1) on `update`, an
explicit `_rendering` re-entrancy guard, per-record handler maps instead of
a Layout-wide registry, mount-once-if-unmounted instead of mount-on-create,
and no unmount calls at all in `_delete_element_state`. -/

/-- A `_state` record of the semaphore variant (lines 222-231):
`event_handlers` maps serialized handler specification → handler id. -/
structure PyRecord where
  parent : Option String
  innerElements : List String
  eventHandlers : List (String × String)

/-- The semaphore-variant `Layout`'s own fields (lines 36-61).  The
`_animate_queue` of callbacks is empty in every claim treated here and is
not carried. -/
structure PyLayout where
  state : List (String × PyRecord)
  updateQueue : List Elem
  semValue : Nat
  rendering : Bool
  rootId : String

/-- `Layout._create_element_state` (lines 222-231): no mount call here. -/
def pyCreateElementState (st : PyLayout) (eid : String)
    (parentId : Option String) : PyLayout :=
  let st :=
    match parentId with
    | some p =>
      match alookup st.state p with
      | some prec =>
        let prec2 := { prec with innerElements := saddElem prec.innerElements eid }
        { st with state := aset st.state p prec2 }
      | none => st
    | none => st
  let rec0 : PyRecord := { parent := parentId, innerElements := [], eventHandlers := [] }
  { st with state := aset st.state eid rec0 }

/-- `Layout._delete_element_state` (lines 238-244) with its recursion over
`inner_elements`, as one fuel-structural worker: pop the record, remove
the id from a tracked parent's `inner_elements`, recursively delete inner
elements.  No handler registry exists and no unmount is invoked in this
variant. -/
def pyDeleteGo : Nat → PyLayout → Sum String (List String) → PyLayout × Option PyErr
  | _, st, .inr [] => (st, none)
  | 0, st, _ => (st, some .fuelOut)
  | fuel + 1, st, .inl eid =>
    match alookup st.state eid with
    | none => (st, some (.keyError eid))
    | some old =>
      let st := { st with state := aremove st.state eid }
      let pres : PyLayout × Option PyErr :=
        match old.parent with
        | some p =>
          match alookup st.state p with
          | some prec =>
            if eid ∈ prec.innerElements then
              let prec2 := { prec with innerElements := prec.innerElements.erase eid }
              ({ st with state := aset st.state p prec2 }, none)
            else (st, some (.keyError eid))
          | none => (st, none)
        | none => (st, none)
      match pres with
      | (st, some e) => (st, some e)
      | (st, none) => pyDeleteGo fuel st (.inr old.innerElements)
  | fuel + 1, st, .inr (c :: rest) =>
    match pyDeleteGo fuel st (.inl c) with
    | (st, some e) => (st, some e)
    | (st, none) => pyDeleteGo fuel st (.inr rest)

/-- `Layout._delete_element_state` entry point for this variant. -/
def pyDeleteElementState (fuel : Nat) (st : PyLayout) (eid : String) :
    PyLayout × Option PyErr :=
  pyDeleteGo fuel st (.inl eid)

/-- `Layout._reset_element_state` (lines 233-236). -/
def pyResetElementState (fuel : Nat) (st : PyLayout) (eid : String) :
    PyLayout × Option PyErr :=
  match alookup st.state eid with
  | none => (st, some (.keyError eid))
  | some rec =>
    match pyDeleteElementState fuel st eid with
    | (st, some e) => (st, some e)
    | (st, none) => (pyCreateElementState st eid rec.parent, none)

/-- `Layout._load_event_handlers` (lines 206-217): serialize each handler
(wrapping bare callables in a fresh `EventHandler(handler, event)` is not
distinguished here — the claims register none), store spec → handler in
the element's record, and build `event_targets` keyed by the element id
(so a later handler overwrites an earlier one's entry). -/
def pyLoadEventHandlers (st : PyLayout) (eid : String)
    (handlers : List (String × EventHandler)) :
    List (String × String) × PyLayout × Option PyErr :=
  match handlers with
  | [] => ([], st, none)
  | (_event, h) :: rest =>
    match alookup st.state eid with
    | none => ([], st, some (.keyError eid))
    | some rec =>
      let rec2 := { rec with eventHandlers := aset rec.eventHandlers h.hid h.hid }
      let st := { st with state := aset st.state eid rec2 }
      match pyLoadEventHandlers st eid rest with
      | (ts, st, err) => (aset ts eid h.hid, st, err)

/-- Attribute values pass through this variant's `_load_model` untouched;
project them to their serialized form for the wire model type. -/
def pyAttrVal : PAttr → String
  | .val s => s
  | .cb s => s
  | .handler h => h.hid

/-- `Layout._load_model` (lines 180-188) and `_load_model_children` (lines
190-204) of this variant as one fuel-structural worker: children tagged
when present (same three-way tagging as the core variant), `eventHandlers`
serialized when present, attributes untouched. -/
def pyLoadGo : Nat → PyLayout → Sum (PNode × String) (List PVal × String) →
    PyLayout × Except PyErr (Sum LNode (List LChild))
  | _, st, .inr ([], _) => (st, .ok (.inr []))
  | 0, st, _ => (st, .error .fuelOut)
  | fuel + 1, st, .inl (PNode.mk tag children attrs handlers, eid) =>
    let cres : PyLayout × Except PyErr (Option (List LChild)) :=
      match children with
      | none => (st, .ok none)
      | some (.many vs) =>
        match pyLoadGo fuel st (.inr (vs, eid)) with
        | (st, .error e) => (st, .error e)
        | (st, .ok (.inr ls)) => (st, .ok (some ls))
        | (st, .ok (.inl _)) => (st, .error .fuelOut)
      | some (.one v) =>
        match pyLoadGo fuel st (.inr ([v], eid)) with
        | (st, .error e) => (st, .error e)
        | (st, .ok (.inr ls)) => (st, .ok (some ls))
        | (st, .ok (.inl _)) => (st, .error .fuelOut)
    match cres with
    | (st, .error e) => (st, .error e)
    | (st, .ok lc) =>
      match handlers with
      | none =>
        (st, .ok (.inl (LNode.mk tag lc (attrs.map (List.map (fun kv => (kv.1, pyAttrVal kv.2)))) none)))
      | some hs =>
        match pyLoadEventHandlers st eid hs with
        | (_ts, st, some e) => (st, .error e)
        | (ts, st, none) =>
          (st, .ok (.inl (LNode.mk tag lc (attrs.map (List.map (fun kv => (kv.1, pyAttrVal kv.2)))) (some ts))))
  | fuel + 1, st, .inr (c :: rest, eid) =>
    match c with
    | .node n =>
      match pyLoadGo fuel st (.inl (n, eid)) with
      | (st, .error e) => (st, .error e)
      | (st, .ok (.inr _)) => (st, .error .fuelOut)
      | (st, .ok (.inl ln)) =>
        match pyLoadGo fuel st (.inr (rest, eid)) with
        | (st, .error e) => (st, .error e)
        | (st, .ok (.inl _)) => (st, .error .fuelOut)
        | (st, .ok (.inr ls)) => (st, .ok (.inr (.obj ln :: ls)))
    | .elem e =>
      match pyLoadGo fuel st (.inr (rest, eid)) with
      | (st, .error er) => (st, .error er)
      | (st, .ok (.inl _)) => (st, .error .fuelOut)
      | (st, .ok (.inr ls)) => (st, .ok (.inr (.ref e.eid :: ls)))
    | .prim s =>
      match pyLoadGo fuel st (.inr (rest, eid)) with
      | (st, .error er) => (st, .error er)
      | (st, .ok (.inl _)) => (st, .error .fuelOut)
      | (st, .ok (.inr ls)) => (st, .ok (.inr (.strv s :: ls)))

/-- `Layout._load_model` entry point for this variant. -/
def pyLoadModel (fuel : Nat) (st : PyLayout) (n : PNode) (eid : String) :
    PyLayout × Except PyErr LNode :=
  match pyLoadGo fuel st (.inl (n, eid)) with
  | (st, .error e) => (st, .error e)
  | (st, .ok (.inl ln)) => (st, .ok ln)
  | (st, .ok (.inr _)) => (st, .error .fuelOut)

/-- `Layout._render_element` of the semaphore variant (lines 135-156) and
its `_render_model` worklist (lines 158-178) as one fuel-structural
worker.  Task `.inl (element, parentId)`: mount only when not already
mounted, render, wrap a bare element result in a synthetic `div`, then
reset or create state (after the render, unlike the core variant) and walk
the model; any exception is wrapped in `RenderError (Failed to render
element)`. -/
def pyRenderGo : Nat → PyLayout → World →
    Sum (Elem × Option String) (List PVal × String) →
    List (String × LNode) × PyLayout × World × Option PyErr
  | _, st, w, .inr ([], _) => ([], st, w, none)
  | 0, st, w, _ => ([], st, w, some .fuelOut)
  | fuel + 1, st, w, .inl (element, parentId) =>
    let eid := element.eid
    let w :=
      if eid ∈ w.mountedSet then w
      else { w with mounts := w.mounts ++ [eid], mountedSet := saddElem w.mountedSet eid }
    match callRender w element with
    | (w, .fail msg) => ([], st, w, some (.renderError [eid] msg))
    | (w, .elem e2) =>
      let r0 : PyLayout × Option PyErr :=
        if amem st.state eid then pyResetElementState fuel st eid
        else (pyCreateElementState st eid parentId, none)
      match r0 with
      | (st, some e) => ([], st, w, some (wrapErr eid e))
      | (st, none) =>
        match pyRenderGo fuel st w
            (.inr ([.node (PNode.mk "div" (some (.many [.elem e2])) none none)], eid)) with
        | (pairs, st, w, some e) => (pairs, st, w, some (wrapErr eid e))
        | (pairs, st, w, none) =>
          match pyLoadModel fuel st
              (PNode.mk "div" (some (.many [.elem e2])) none none) eid with
          | (st, .error e) => (pairs, st, w, some (wrapErr eid e))
          | (st, .ok lm) => (pairs ++ [(eid, lm)], st, w, none)
    | (w, .node nd) =>
      let r0 : PyLayout × Option PyErr :=
        if amem st.state eid then pyResetElementState fuel st eid
        else (pyCreateElementState st eid parentId, none)
      match r0 with
      | (st, some e) => ([], st, w, some (wrapErr eid e))
      | (st, none) =>
        match pyRenderGo fuel st w (.inr ([.node nd], eid)) with
        | (pairs, st, w, some e) => (pairs, st, w, some (wrapErr eid e))
        | (pairs, st, w, none) =>
          match pyLoadModel fuel st nd eid with
          | (st, .error e) => (pairs, st, w, some (wrapErr eid e))
          | (st, .ok lm) => (pairs ++ [(eid, lm)], st, w, none)
  | fuel + 1, st, w, .inr (v :: rest, eid) =>
    match v with
    | .elem e =>
      match pyRenderGo fuel st w (.inl (e, some eid)) with
      | (pairs, st, w, some er) => (pairs, st, w, some er)
      | (pairs, st, w, none) =>
        match pyRenderGo fuel st w (.inr (rest, eid)) with
        | (ps, st, w, err) => (pairs ++ ps, st, w, err)
    | .node n => pyRenderGo fuel st w (.inr (rest ++ visitChildren n, eid))
    | .prim _ => pyRenderGo fuel st w (.inr (rest, eid))

/-- `Layout._render_element` entry point for this variant. -/
def pyRenderElement (fuel : Nat) (st : PyLayout) (w : World) (element : Elem)
    (parentId : Option String) :
    List (String × LNode) × PyLayout × World × Option PyErr :=
  pyRenderGo fuel st w (.inl (element, parentId))

/-- `Layout.__init__` (lines 46-61): empty state, update list, semaphore at
1, create the root's record, `_rendering = False`, then `update(root)`. -/
def pyInit (root : Elem) : PyLayout :=
  let st : PyLayout :=
    { state := [], updateQueue := [], semValue := 1, rendering := false,
      rootId := root.eid }
  let st := pyCreateElementState st root.eid none
  { st with updateQueue := st.updateQueue ++ [root] }

/-- `Layout.update` (lines 90-97): append to the update list and release
the render semaphore only when it is locked. -/
def pyUpdate (element : Elem) (st : PyLayout) : PyLayout :=
  let st := { st with updateQueue := st.updateQueue ++ [element] }
  if st.semValue = 0 then { st with semValue := st.semValue + 1 } else st

/-- The synchronous prefix of `Layout.render` (lines 99-103): the
re-entrancy guard runs before the first suspension point.  Returns the
`RuntimeError` message, or the layout with `_rendering` set. -/
def pyRenderEnter (st : PyLayout) : Sum String PyLayout :=
  if st.rendering then .inl "Layout is already awaiting a render."
  else .inr { st with rendering := true }

/-- One rendering pass over the drained update list (lines 122-126):
look up each element's tracked parent, render it, merge its yields, and
record it in `roots`. -/
def pyRenderUpdates (fuel : Nat) (st : PyLayout) (w : World) :
    List Elem → List String × List (String × LNode) × PyLayout × World × Option PyErr
  | [] => ([], [], st, w, none)
  | e :: rest =>
    match alookup st.state e.eid with
    | none => ([], [], st, w, some (.keyError e.eid))
    | some rec =>
      match pyRenderElement fuel st w e rec.parent with
      | (pairs, st, w, some er) => ([], pairs, st, w, some er)
      | (pairs, st, w, none) =>
        match pyRenderUpdates fuel st w rest with
        | (roots, ps, st, w, err) => (e.eid :: roots, pairs ++ ps, st, w, err)

/-- The result of a full `Layout.render()` call of this variant. -/
inductive PyResult where
  | ok : List String → List (String × LNode) → List String → PyResult
  | exc : PyErr → PyResult
  | runtimeError : String → PyResult
  | wouldBlock : PyResult

/-- `Layout.render` (lines 99-133): the guard, the semaphore acquire, the
snapshot of tracked ids, draining the update list, one pass over it, the
`old` difference, and clearing `_rendering` on the successful path (an
exception propagates with `_rendering` still set, as in the source). -/
def pyRender (fuel : Nat) (st : PyLayout) (w : World) :
    PyLayout × World × PyResult :=
  match pyRenderEnter st with
  | .inl msg => (st, w, .runtimeError msg)
  | .inr st =>
    if st.semValue = 0 then (st, w, .wouldBlock)
    else
      let st := { st with semValue := st.semValue - 1 }
      let current := akeys st.state
      let updates := st.updateQueue
      let st := { st with updateQueue := [] }
      match pyRenderUpdates fuel st w updates with
      | (_, _, st, w, some er) => (st, w, .exc er)
      | (roots, pairs, st, w, none) =>
        let newd := pairs.foldl (fun d p => aset d p.1 p.2) []
        let old := current.filter (fun k => ¬ amem st.state k)
        ({ st with rendering := false }, w, .ok roots newd old)

/-! ### Theorems -/

/-- Characterization of a between-render setter sequence: threading the
state box through `set_state` equals the last-write-wins fold against the
render-time value, and `update()` fires once per call whose computed value
differs from the render-time value. -/
theorem applySetters_eq {V : Type} [DecidableEq V] (captured : V)
    (calls : List (SetArg V)) :
    ∀ b, applySetters captured b calls
      = (lastWinsFrom captured b calls, changedCountAt captured calls) := by
  induction calls with
  | nil => intro b; rfl
  | cons a rest ih =>
    intro b
    by_cases h : a.eval captured = captured
    · have hb := ih b
      simp only [applySetters, set_state, lastWinsFrom, changedCountAt,
        List.foldl_cons, List.filter_cons, h] at *
      simp [hb]
    · have hb := ih (a.eval captured)
      simp only [applySetters, set_state, lastWinsFrom, changedCountAt,
        List.foldl_cons, List.filter_cons] at *
      simp [h, hb, Nat.add_comm]

/-- C1 counterexample: with render-time value 0 and two successive
`set_state` calls passing the updater `Nat.succ`, the next render observes
1 — each updater received the stale render-time value 0 — while the claim's
fold-the-calls-in-order semantics yields 2. -/
theorem use_state_setter_stale_counterexample :
    (use_state_read (Sum.inl (0 : Nat))
        (some (applySetters 0 0 [SetArg.upd Nat.succ, SetArg.upd Nat.succ]).1)).1 = 1
    ∧ specFoldValue 0 [SetArg.upd Nat.succ, SetArg.upd Nat.succ] = 2
    ∧ (1 : Nat) ≠ 2 := by
  refine ⟨rfl, rfl, by decide⟩

/-- C1 (amended): each setter call evaluates its argument against the value
captured at the preceding render, not the most-recently-committed one; the
value observed by the next render is the result of the last call whose
computed value differs from the render-time value (or the render-time
value when none differs), and exactly the calls whose computed value
differs from the render-time value commit and trigger scheduling — in
particular a call whose computed value equals the render-time value
commits nothing and schedules nothing. -/
theorem use_state_setter_last_wins {V : Type} [DecidableEq V] (c : V)
    (calls : List (SetArg V)) :
    (use_state_read (Sum.inl c) (some (applySetters c c calls).1)).1
        = lastWinsFrom c c calls
    ∧ (applySetters c c calls).2 = changedCountAt c calls := by
  have h := applySetters_eq c calls c
  exact ⟨by simp [use_state_read, h], by simp [h]⟩

/-- C9: a hook that defers one `schedule_render` during a render invokes
the Layout's scheduling callback zero times during that render and once
when it completes; but because `element_did_render` never clears
`_schedule_render_later`, completing the next render with no further
`schedule_render` calls invokes the callback again (count 2, flag still
set) — the source contradicts the deferred-flag design it implements. -/
theorem schedule_render_deferred_flag_bug :
    (((LifeCycleHook.init Nat).element_will_render).schedule_render).callbackCalls = 0
    ∧ ((((LifeCycleHook.init Nat).element_will_render).schedule_render).element_did_render).callbackCalls = 1
    ∧ (((((((LifeCycleHook.init Nat).element_will_render).schedule_render).element_did_render).element_will_render)).element_did_render).callbackCalls = 2
    ∧ (((((((LifeCycleHook.init Nat).element_will_render).schedule_render).element_did_render).element_will_render)).element_did_render).scheduleRenderLater = true := by
  refine ⟨rfl, rfl, rfl, rfl⟩

/-- C7: loading a children sequence `[A, "text", B]` with sub-elements `A`
and `B` yields exactly the three tagged wire items
`[ref A.id, str "text", ref B.id]`, for any layout state and owner id; and
a whole mapping node with those children loads to the same tagged children
under its tag.  Every loaded child is by construction one of the three
tagged forms `obj`/`ref`/`str`. -/
theorem load_model_children_tagging (st : CoreLayout) (w : World) (eid : String)
    (A B : Elem) (text tag : String) :
    loadChildrenList 10 st w [.elem A, .prim text, .elem B] eid
      = (st, w, .ok [.ref A.eid, .strv text, .ref B.eid])
    ∧ loadModel 10 st w
        (PNode.mk tag (some (.many [.elem A, .prim text, .elem B])) none none) eid
      = (st, w, .ok (LNode.mk tag (some [.ref A.eid, .strv text, .ref B.eid]) none none)) := by
  exact ⟨rfl, rfl⟩

/-- On an element's first-ever render (`_rendered_atleast_once` unset),
each `use_state` call invokes its factory once and appends the result. -/
theorem runBody_first {V : Type} (fs : List (Unit → V)) :
    ∀ h : LifeCycleHook V, h.renderedAtleastOnce = false →
      runBody fs h = some (fs.map (fun f => f ()), List.replicate fs.length 1,
        { h with state := h.state ++ fs.map (fun f => f ()),
                 currentStateIndex := h.currentStateIndex + fs.length }) := by
  induction fs with
  | nil => intro h hra; simp [runBody]
  | cons f fs ih =>
    intro h hra
    have step : h.use_state f
        = some (f (), { h with state := h.state ++ [f ()],
                               currentStateIndex := h.currentStateIndex + 1 }, 1) := by
      simp [LifeCycleHook.use_state, hra]
    have ih2 := ih { h with state := h.state ++ [f ()],
                            currentStateIndex := h.currentStateIndex + 1 } hra
    simp only [runBody, step, ih2]
    simp [List.replicate_succ, List.append_assoc, Nat.add_assoc, Nat.add_comm]
    rw [Nat.add_comm, List.replicate_succ]

/-- On a subsequent render, each `use_state` call returns the stored slot
at its ordinal position without invoking the factory. -/
theorem runBody_subsequent {V : Type} (gs : List (Unit → V)) :
    ∀ h : LifeCycleHook V, h.renderedAtleastOnce = true →
      h.currentStateIndex + gs.length ≤ h.state.length →
      runBody gs h = some ((h.state.drop h.currentStateIndex).take gs.length,
        List.replicate gs.length 0,
        { h with currentStateIndex := h.currentStateIndex + gs.length }) := by
  induction gs with
  | nil => intro h hra _; simp [runBody]
  | cons g gs ih =>
    intro h hra hlen
    have hlen1 : h.currentStateIndex + 1 + gs.length ≤ h.state.length := by
      simp [List.length_cons] at hlen
      omega
    have hidx : h.currentStateIndex < h.state.length := by omega
    have hget : h.state[h.currentStateIndex]? = some h.state[h.currentStateIndex] :=
      List.getElem?_eq_getElem hidx
    have step : h.use_state g
        = some (h.state[h.currentStateIndex],
            { h with currentStateIndex := h.currentStateIndex + 1 }, 0) := by
      simp [LifeCycleHook.use_state, hra, hget]
    have ih2 := ih { h with currentStateIndex := h.currentStateIndex + 1 }
      hra (by simp; omega)
    simp only [runBody, step, ih2]
    have hdrop : h.state.drop h.currentStateIndex
        = h.state[h.currentStateIndex] :: h.state.drop (h.currentStateIndex + 1) :=
      (List.getElem_cons_drop h.state h.currentStateIndex hidx).symm
    simp [List.replicate_succ, List.length_cons, LifeCycleHook.mk.injEq]
    constructor
    · rw [hdrop, List.take_succ_cons]
    · omega

/-- C2: with stable hook-call order, the first-ever render of an element
invokes each `use_state` factory exactly once (invocation count 1 per
call), appending each result as a new slot in call order and returning it;
a subsequent render making the same number of calls returns exactly the
stored slots in the same ordinal order with no factory invocation
(count 0 per call); and the slot ordinal is reset to zero at the end of
each render by `element_did_render`. -/
theorem lifecycle_use_state_slots {V : Type} (fs gs : List (Unit → V))
    (hlen : gs.length = fs.length) :
    ∃ h1 h2 : LifeCycleHook V,
      renderCycle fs (LifeCycleHook.init V)
        = some (fs.map (fun f => f ()), List.replicate fs.length 1, h1)
      ∧ h1.state = fs.map (fun f => f ())
      ∧ h1.currentStateIndex = 0
      ∧ h1.renderedAtleastOnce = true
      ∧ renderCycle gs h1
        = some (fs.map (fun f => f ()), List.replicate gs.length 0, h2)
      ∧ h2.state = fs.map (fun f => f ())
      ∧ h2.currentStateIndex = 0 := by
  have h1run := runBody_first fs ((LifeCycleHook.init V).element_will_render) rfl
  refine ⟨⟨false, false, false, true, 0, fs.map (fun f => f ()), 0⟩,
          ⟨false, false, false, true, 0, fs.map (fun f => f ()), 0⟩,
          ?_, rfl, rfl, rfl, ?_, rfl, rfl⟩
  · simp only [renderCycle, h1run]
    simp [LifeCycleHook.element_did_render, LifeCycleHook.element_will_render,
      LifeCycleHook.schedule_render_prim, LifeCycleHook.init]
  · have h2run := runBody_subsequent gs
      (⟨false, false, true, true, 0, fs.map (fun f => f ()), 0⟩ : LifeCycleHook V)
      rfl (by simp [hlen])
    have hw : (⟨false, false, false, true, 0, fs.map (fun f => f ()), 0⟩ :
        LifeCycleHook V).element_will_render
        = ⟨false, false, true, true, 0, fs.map (fun f => f ()), 0⟩ := rfl
    simp only [renderCycle, hw, h2run]
    simp [LifeCycleHook.element_did_render, LifeCycleHook.schedule_render_prim,
      hlen, List.take_length, List.length_map]

/-- C2 witness: two first-render factories producing 5 and 7, then a
second render with two different factories; the second render returns the
stored slots 5 and 7 with zero factory invocations. -/
theorem lifecycle_use_state_slots_witness :
    ([(fun _ => (100 : Nat)), (fun _ => 200)] : List (Unit → Nat)).length
        = ([(fun _ => (5 : Nat)), (fun _ => 7)] : List (Unit → Nat)).length
    ∧ ∃ h1 h2 : LifeCycleHook Nat,
      renderCycle [(fun _ => (5 : Nat)), (fun _ => 7)] (LifeCycleHook.init Nat)
        = some ([5, 7], [1, 1], h1)
      ∧ h1.state = [5, 7]
      ∧ h1.currentStateIndex = 0
      ∧ h1.renderedAtleastOnce = true
      ∧ renderCycle [(fun _ => (100 : Nat)), (fun _ => 200)] h1
        = some ([5, 7], [0, 0], h2)
      ∧ h2.state = [5, 7]
      ∧ h2.currentStateIndex = 0 :=
  ⟨rfl, lifecycle_use_state_slots [fun _ => 5, fun _ => 7]
    [fun _ => 100, fun _ => 200] rfl⟩

/-- A minimal demonstration element: renders a childless node with the
given tag on every render. -/
def leafElem (i tag : String) : Elem :=
  .mk i (fun _ => .node (PNode.mk tag none none none))

/-- C4: when no render is in flight, `render()`'s synchronous prefix sets
the `_rendering` guard; a second `render()` call issued while the first has
not completed fails fast with the `RuntimeError` and changes neither the
layout nor the world — it neither deadlocks, queues silently, nor
interleaves a second pass. -/
theorem render_reentrancy_guard (st : PyLayout) (w : World) (fuel : Nat)
    (h : st.rendering = false) :
    pyRenderEnter st = .inr { st with rendering := true }
    ∧ pyRender fuel { st with rendering := true } w
        = ({ st with rendering := true }, w,
           .runtimeError "Layout is already awaiting a render.") := by
  constructor
  · simp [pyRenderEnter, h]
  · simp [pyRender, pyRenderEnter]

/-- C4 witness at a freshly constructed semaphore-variant layout. -/
theorem render_reentrancy_guard_witness :
    (pyInit (leafElem "root" "div")).rendering = false
    ∧ (pyRenderEnter (pyInit (leafElem "root" "div"))
          = .inr { pyInit (leafElem "root" "div") with rendering := true }
       ∧ pyRender 10 { pyInit (leafElem "root" "div") with rendering := true } World.init
          = ({ pyInit (leafElem "root" "div") with rendering := true }, World.init,
             .runtimeError "Layout is already awaiting a render.")) :=
  ⟨rfl, render_reentrancy_guard (pyInit (leafElem "root" "div")) World.init 10 rfl⟩

/-- The C3 scenario layout: a fresh semaphore-variant layout whose root is
a leaf element, after two explicit `update(root)` calls. -/
def c3Layout (rid tag : String) : PyLayout :=
  pyUpdate (leafElem rid tag) (pyUpdate (leafElem rid tag) (pyInit (leafElem rid tag)))

/-- C3 counterexample: after two `update(root)` calls on a fresh layout the
update queue holds three entries (the constructor queued one and neither
call coalesced), not one; and the next `render()` pass renders the root
three times, returning it three times in `roots`. -/
theorem update_twice_counterexample :
    (c3Layout "r" "div").updateQueue.length = 3
    ∧ (pyRender 20 (c3Layout "r" "div") World.init).2.2
        = PyResult.ok ["r", "r", "r"] [("r", LNode.mk "div" none none none)] []
    ∧ ¬((3 : Nat) = 1)
    ∧ ¬((["r", "r", "r"] : List String).length = 1) := by
  refine ⟨rfl, rfl, by decide, by decide⟩

/-- C3 (amended): each `update(root)` call appends its own queue entry
(the constructor already queued one), releasing the coalescing semaphore at
most once; the next `render()` call drains *all* queued entries in one pass
and returns a single result, in which the root was rendered once per entry
— its id appears once per entry in `roots` — while `new` still maps the
root id to its model just once and nothing is deleted. -/
theorem update_twice_single_pass (rid tag : String) :
    (c3Layout rid tag).updateQueue
        = [leafElem rid tag, leafElem rid tag, leafElem rid tag]
    ∧ (c3Layout rid tag).semValue = 1
    ∧ (pyRender 20 (c3Layout rid tag) World.init).2.2
        = PyResult.ok [rid, rid, rid] [(rid, LNode.mk tag none none none)] [] := by
  refine ⟨?_, ?_, ?_⟩
  · simp [c3Layout, pyInit, pyUpdate, pyCreateElementState, leafElem]
  · simp [c3Layout, pyInit, pyUpdate, pyCreateElementState, leafElem]
  · simp [c3Layout, pyInit, pyUpdate, pyCreateElementState, leafElem, pyRender,
      pyRenderEnter, pyRenderUpdates, pyRenderElement, pyRenderGo, pyLoadModel,
      pyLoadGo, pyResetElementState, pyDeleteElementState, pyDeleteGo, callRender,
      Elem.eid, Elem.renderAt, visitChildren, World.init, alookup, aset, amem,
      aremove, akeys, saddElem]

/-- The C8/C6 child elements: leaves with an event handler each. -/
def childWithHandler (i hid : String) : Elem :=
  .mk i (fun _ => .node (PNode.mk "button" none none
    (some [("onClick", ⟨hid⟩)])))

/-- The C8 parent: renders a `div` containing child `A` on its first
render and a childless `div` afterwards. -/
def c8Parent : Elem :=
  .mk "P" (fun n =>
    if n = 0 then .node (PNode.mk "div" (some (.many [.elem (leafElem "A" "span")])) none none)
    else .node (PNode.mk "div" none none none))

/-- The core layout after the first render pass of the C8 scenario. -/
def c8AfterFirst : CoreSt := (coreRender 20 (coreInit c8Parent)).1

/-- The core layout after re-rendering the already-mounted parent in
place. -/
def c8AfterSecond : CoreSt := (coreRender 20 (coreUpdate c8Parent c8AfterFirst)).1

/-- C8 counterexample: re-rendering the already-mounted parent `P` in
place invokes its `mount` lifecycle again — after the first pass the mount
log is `[P, A]`, after the in-place re-render it is `[P, A, P]`, so `P` was
mounted twice while continuously occupying its position. -/
theorem mount_once_counterexample :
    c8AfterFirst.world.mounts = ["P", "A"]
    ∧ c8AfterSecond.world.mounts = ["P", "A", "P"]
    ∧ ¬(List.count "P" c8AfterSecond.world.mounts = 1) := by
  refine ⟨rfl, rfl, by decide⟩

/-- C8 (amended): `mount` is invoked whenever element state is created —
once on first mount and again on every in-place re-render, since resetting
recreates the state record through `_create_element_state`; `unmount` is
invoked exactly once for an element whose state is deleted as part of
discarding a subtree (child `A` here), and not on in-place resets of the
re-rendered element itself.  Universally, creating element state always
appends exactly one `mount` call for that element. -/
theorem mount_on_create_unmount_on_delete :
    (∀ (st : CoreLayout) (w : World) (e : Elem) (pid : Option String),
      ((createElementState st w e pid).2).mounts = w.mounts ++ [e.eid]
      ∧ ((createElementState st w e pid).2).unmounts = w.unmounts)
    ∧ c8AfterSecond.world.mounts = ["P", "A", "P"]
    ∧ c8AfterSecond.world.unmounts = ["A"]
    ∧ List.count "A" c8AfterSecond.world.unmounts = 1 := by
  refine ⟨fun st w e pid => ⟨rfl, rfl⟩, rfl, rfl, by decide⟩

/-- Lookup after `aset`: the written key reads back the value, others are
unaffected. -/
theorem alookup_aset {A : Type} (d : List (String × A)) (k : String) (v : A)
    (k' : String) :
    alookup (aset d k v) k' = if k = k' then some v else alookup d k' := by
  induction d with
  | nil => simp [aset, alookup]
  | cons kv rest ih =>
    simp only [aset]
    by_cases hk : kv.1 = k
    · simp only [if_pos hk]
      by_cases hk' : k = k'
      · simp [alookup, hk, hk']
      · simp [alookup, hk, hk', hk ▸ hk']
    · simp only [if_neg hk]
      by_cases hk' : kv.1 = k'
      · have : ¬k = k' := fun he => hk (he ▸ hk')
        simp [alookup, hk', this]
      · simp [alookup, hk', ih]

/-- Setting a key makes it present. -/
theorem aset_amem {A : Type} (d : List (String × A)) (k : String) (v : A) :
    amem (aset d k v) k = true := by
  simp [amem, alookup_aset]

/-- Setting one key preserves the presence of any other. -/
theorem amem_aset_preserve {A : Type} (d : List (String × A)) (k : String) (v : A)
    (k' : String) (h : amem d k' = true) : amem (aset d k v) k' = true := by
  simp only [amem, alookup_aset]
  by_cases hk : k = k'
  · simp [hk]
  · simpa [hk] using h

/-- Folding a pair list into a dict with `aset` yields every folded key. -/
theorem amem_foldl_aset {A : Type} (pairs : List (String × A)) :
    ∀ (init : List (String × A)) (k : String),
      (k ∈ pairs.map Prod.fst ∨ amem init k = true) →
      amem (pairs.foldl (fun d p => aset d p.1 p.2) init) k = true := by
  induction pairs with
  | nil =>
    intro init k h
    simpa using h.resolve_left (by simp)
  | cons p ps ih =>
    intro init k h
    simp only [List.foldl_cons]
    apply ih
    rcases h with hmem | hinit
    · rcases (by simpa using hmem : k = p.1 ∨ k ∈ ps.map Prod.fst) with he | hin
      · exact Or.inr (he ▸ aset_amem init p.1 p.2)
      · exact Or.inl hin
    · exact Or.inr (amem_aset_preserve init p.1 p.2 k hinit)

/-- A successful `_render_element` run always yields the element's own
model as its final pair. -/
theorem renderElementCore_ok_mem (fuel : Nat) (st : CoreLayout) (w : World)
    (e : Elem) (pid : Option String) (pairs : List (String × LNode))
    (st' : CoreLayout) (w' : World)
    (h : renderElementCore fuel st w e pid = (pairs, st', w', none)) :
    e.eid ∈ pairs.map Prod.fst := by
  cases fuel with
  | zero => simp [renderElementCore, renderGo] at h
  | succ n =>
    rw [renderElementCore, renderGo] at h
    repeat' split at h
    all_goals simp only [Prod.ext_iff] at h
    all_goals simp_all
    all_goals obtain ⟨h1, -⟩ := h
    all_goals exact ⟨_, h1 ▸ List.mem_append_right _ (List.mem_singleton_self _)⟩

/-- `Layout._render` never suspends: its outcome is never `wouldBlock`. -/
theorem coreRenderOne_ne_wouldBlock (fuel : Nat) (st : CoreLayout) (w : World)
    (e : Elem) : (coreRenderOne fuel st w e).2.2 ≠ RenderResult.wouldBlock := by
  rw [coreRenderOne]
  repeat' split
  all_goals simp

/-- A successful `_render` of an element produces an update whose source is
that element and whose `new` mapping contains that element's id. -/
theorem coreRenderOne_ok (fuel : Nat) (st : CoreLayout) (w : World) (e : Elem)
    (st' : CoreLayout) (w' : World) (u : LayoutUpdate)
    (h : coreRenderOne fuel st w e = (st', w', .ok u)) :
    u.src = e.eid ∧ amem u.new e.eid = true := by
  rw [coreRenderOne] at h
  split at h
  · simp_all
  · rcases hre : renderElementCore fuel st w e _ with ⟨pairs, st2, w2, err⟩
    rw [hre] at h
    cases err with
    | none =>
      simp only [Prod.ext_iff, RenderResult.ok.injEq] at h
      obtain ⟨h1, h2, h3⟩ := h
      subst h3
      refine ⟨rfl, ?_⟩
      exact amem_foldl_aset pairs [] e.eid
        (Or.inl (renderElementCore_ok_mem fuel st w e _ pairs st2 w2 hre))
    | some perr => cases perr <;> simp_all

/-- `Layout.render` with a non-empty queue runs the first queued render. -/
theorem coreRender_cons (fuel : Nat) (l : CoreLayout) (w : World) (e : Elem)
    (rest : List Elem) :
    coreRender fuel ⟨l, w, e :: rest⟩
      = (⟨(coreRenderOne fuel l w e).1, (coreRenderOne fuel l w e).2.1, rest⟩,
         (coreRenderOne fuel l w e).2.2) := by
  rw [coreRender]

/-- C10: constructing a core Layout queues exactly one initial render of
the root; the first `render()` with no intervening `update()` does not
suspend, and when the pass succeeds the returned `LayoutUpdate` has the
root as source and contains an entry for the root's id in `new`. -/
theorem layout_init_enqueues_root_render (root : Elem) (fuel : Nat) :
    (coreInit root).queue = [root]
    ∧ (coreRender fuel (coreInit root)).2 ≠ RenderResult.wouldBlock
    ∧ ∀ (s' : CoreSt) (u : LayoutUpdate),
        coreRender fuel (coreInit root) = (s', RenderResult.ok u) →
        u.src = root.eid ∧ amem u.new root.eid = true := by
  refine ⟨rfl, ?_, ?_⟩
  · rw [coreInit, coreRender_cons]
    exact coreRenderOne_ne_wouldBlock fuel _ _ root
  · intro s' u h
    rw [coreInit, coreRender_cons] at h
    have h2 := congrArg Prod.snd h
    simp only at h2
    exact coreRenderOne_ok fuel _ _ root _ _ u
      (by rw [← h2])

/-- The update produced by the first render of a freshly constructed core
Layout over the demonstration root. -/
def c10Update : LayoutUpdate :=
  match (coreRender 10 (coreInit (leafElem "droot" "div"))).2 with
  | RenderResult.ok u => u
  | _ => ⟨"", [], []⟩

/-- C10 witness: on a concrete leaf root, construction queues the root and
the first render returns an update sourced at the root whose `new` maps
the root's id. -/
theorem layout_init_enqueues_root_render_witness :
    (coreInit (leafElem "droot" "div")).queue = [leafElem "droot" "div"]
    ∧ (coreRender 10 (coreInit (leafElem "droot" "div"))).2 ≠ RenderResult.wouldBlock
    ∧ (c10Update.src = "droot" ∧ amem c10Update.new "droot" = true) :=
  ⟨(layout_init_enqueues_root_render (leafElem "droot" "div") 10).1,
   (layout_init_enqueues_root_render (leafElem "droot" "div") 10).2.1,
   (layout_init_enqueues_root_render (leafElem "droot" "div") 10).2.2
     (coreRender 10 (coreInit (leafElem "droot" "div"))).1 c10Update rfl⟩

/-- Whether an exception is a `RenderError`. -/
def PyErr.isRenderErr : PyErr → Bool
  | .renderError _ _ => true
  | _ => false

/-- `del self._event_handlers[...]` can only raise `KeyError`. -/
theorem delHandlers_err (hs : List String) :
    ∀ (reg reg' : List (String × EventHandler)) (e : PyErr),
      delHandlers reg hs = (reg', some e) → e.isRenderErr = false := by
  induction hs with
  | nil => intro reg reg' e h; simp [delHandlers] at h
  | cons h0 rest ih =>
    intro reg reg' e h
    by_cases hm : amem reg h0 = true
    · simp only [delHandlers, hm, if_true] at h
      exact ih _ _ _ h
    · simp only [delHandlers, hm] at h
      simp at hm
      simp [hm] at h
      obtain ⟨-, h2⟩ := h
      subst h2
      rfl

/-- The parent-fixup step can only raise `KeyError`. -/
theorem removeFromParent_err (st : CoreLayout) (parent : Option String)
    (eid : String) (st' : CoreLayout) (e : PyErr)
    (h : removeFromParent st parent eid = (st', some e)) : e.isRenderErr = false := by
  rw [removeFromParent.eq_def] at h
  repeat' split at h
  all_goals simp_all
  all_goals (obtain ⟨-, h2⟩ := h; subst h2; rfl)

/-- Registering handlers can only raise `KeyError`. -/
theorem registerHandlers_err (hs : List (String × EventHandler)) :
    ∀ (st : CoreLayout) (eid : String) (ts : List (String × String))
      (st' : CoreLayout) (e : PyErr),
      registerHandlers st eid hs = (ts, st', some e) → e.isRenderErr = false := by
  induction hs with
  | nil => intro st eid ts st' e h; simp [registerHandlers] at h
  | cons h0 rest ih =>
    intro st eid ts st' e h
    rw [registerHandlers] at h
    split at h
    · simp at h
      obtain ⟨-, -, h3⟩ := h
      subst h3
      rfl
    · rename_i old hold
      revert h
      dsimp only
      rcases hrec : registerHandlers _ eid rest with ⟨ts2, st2, err2⟩
      intro h
      simp only [hrec] at h
      simp at h
      obtain ⟨-, -, h3⟩ := h
      cases err2 with
      | none => simp at h3
      | some e2 =>
        simp at h3
        subst h3
        exact ih _ _ _ _ _ hrec

/-- Assembling a loaded node can only raise `KeyError`. -/
theorem loadFinish_err (st : CoreLayout) (w : World) (tag : String)
    (lc : Option (List LChild)) (attrs : Option (List (String × PAttr)))
    (handlers : Option (List (String × EventHandler))) (eid : String)
    (st' : CoreLayout) (w' : World) (e : PyErr)
    (h : loadFinish st w tag lc attrs handlers eid = (st', w', .error e)) :
    e.isRenderErr = false := by
  rcases hrec : registerHandlers st eid (gatherNodeHandlers w handlers attrs).2.1
    with ⟨ts2, st2, err2⟩
  rw [loadFinish.eq_def] at h
  dsimp only at h
  rw [hrec] at h
  cases err2 with
  | some e2 =>
    simp at h
    obtain ⟨-, -, h3⟩ := h
    subst h3
    exact registerHandlers_err _ _ _ _ _ _ hrec
  | none => simp at h

/-- Deletion (`_delete_element_state`) never raises a `RenderError`. -/
theorem deleteGo_err (fuel : Nat) :
    ∀ (st : CoreLayout) (w : World) (task : Sum (String × Bool) (List String))
      (st' : CoreLayout) (w' : World) (e : PyErr),
      deleteGo fuel st w task = (st', w', some e) → e.isRenderErr = false := by
  induction fuel with
  | zero =>
    intro st w task st' w' e h
    rcases task with p | l
    · simp [deleteGo] at h
      obtain ⟨-, -, h3⟩ := h
      subst h3
      rfl
    · rcases l with - | ⟨c, rest⟩
      · simp [deleteGo] at h
      · simp [deleteGo] at h
        obtain ⟨-, -, h3⟩ := h
        subst h3
        rfl
  | succ n ih =>
    intro st w task st' w' e h
    rcases task with ⟨eid, unm⟩ | l
    · rw [deleteGo] at h
      split at h
      · simp at h
        obtain ⟨-, -, h3⟩ := h
        subst h3
        rfl
      · split at h
        · rename_i heq
          simp at h
          obtain ⟨-, -, h3⟩ := h
          subst h3
          exact removeFromParent_err _ _ _ _ _ heq
        · split at h
          · rename_i heq
            simp at h
            obtain ⟨-, -, h3⟩ := h
            subst h3
            exact delHandlers_err _ _ _ _ heq
          · split at h
            · rename_i heq
              simp at h
              obtain ⟨-, -, h3⟩ := h
              subst h3
              exact ih _ _ _ _ _ _ heq
            · split at h <;> simp_all
    · rcases l with - | ⟨c, rest⟩
      · simp [deleteGo] at h
      · rw [deleteGo] at h
        split at h
        · rename_i heq
          simp at h
          obtain ⟨-, -, h3⟩ := h
          subst h3
          exact ih _ _ _ _ _ _ heq
        · exact ih _ _ _ _ _ _ h

/-- Loading (`_load_model` and `_load_model_children`) never raises a
`RenderError` of its own. -/
theorem loadGo_err (fuel : Nat) :
    ∀ (st : CoreLayout) (w : World) (task : Sum (PNode × String) (List PVal × String))
      (st' : CoreLayout) (w' : World) (e : PyErr),
      loadGo fuel st w task = (st', w', .error e) → e.isRenderErr = false := by
  induction fuel with
  | zero =>
    intro st w task st' w' e h
    rcases task with ⟨nd, eid⟩ | ⟨l, eid⟩
    · simp [loadGo] at h
      obtain ⟨-, -, h3⟩ := h
      subst h3
      rfl
    · rcases l with - | ⟨c, rest⟩
      · simp [loadGo] at h
      · simp [loadGo] at h
        obtain ⟨-, -, h3⟩ := h
        subst h3
        rfl
  | succ n ih =>
    intro st w task st' w' e h
    rcases task with ⟨nd, eid⟩ | ⟨l, eid⟩
    · rcases nd with ⟨tag, children, attrs, handlers⟩
      simp only [loadGo] at h
      rcases children with - | ch
      · exact loadFinish_err _ _ _ _ _ _ _ _ _ _ h
      · rcases ch with vs | v
        · dsimp only at h
          rcases hrec : loadGo n st w (.inr (vs, eid)) with ⟨stA, wA, res⟩
          rw [hrec] at h
          rcases res with e0 | v0
          · simp at h
            obtain ⟨-, -, h3⟩ := h
            subst h3
            exact ih _ _ _ _ _ _ hrec
          · rcases v0 with ln | ls
            · simp at h
              obtain ⟨-, -, h3⟩ := h
              subst h3
              rfl
            · exact loadFinish_err _ _ _ _ _ _ _ _ _ _ h
        · dsimp only at h
          rcases hrec : loadGo n st w (.inr ([v], eid)) with ⟨stA, wA, res⟩
          rw [hrec] at h
          rcases res with e0 | v0
          · simp at h
            obtain ⟨-, -, h3⟩ := h
            subst h3
            exact ih _ _ _ _ _ _ hrec
          · rcases v0 with ln | ls
            · simp at h
              obtain ⟨-, -, h3⟩ := h
              subst h3
              rfl
            · exact loadFinish_err _ _ _ _ _ _ _ _ _ _ h
    · rcases l with - | ⟨c, rest⟩
      · simp [loadGo] at h
      · simp only [loadGo] at h
        rcases c with ce | cn | cs
        · dsimp only at h
          rcases hrec : loadGo n st w (.inr (rest, eid)) with ⟨stA, wA, res⟩
          rw [hrec] at h
          rcases res with e0 | v0
          · simp at h
            obtain ⟨-, -, h3⟩ := h
            subst h3
            exact ih _ _ _ _ _ _ hrec
          · rcases v0 with ln | ls
            · simp at h
              obtain ⟨-, -, h3⟩ := h
              subst h3
              rfl
            · simp at h
        · dsimp only at h
          rcases hrec : loadGo n st w (.inl (cn, eid)) with ⟨stA, wA, res⟩
          rw [hrec] at h
          rcases res with e0 | v0
          · simp at h
            obtain ⟨-, -, h3⟩ := h
            subst h3
            exact ih _ _ _ _ _ _ hrec
          · rcases v0 with ln | ls
            · dsimp only at h
              rcases hrec2 : loadGo n stA wA (.inr (rest, eid)) with ⟨stB, wB, res2⟩
              rw [hrec2] at h
              rcases res2 with e2 | v2
              · simp at h
                obtain ⟨-, -, h3⟩ := h
                subst h3
                exact ih _ _ _ _ _ _ hrec2
              · rcases v2 with l2 | l2
                · simp at h
                  obtain ⟨-, -, h3⟩ := h
                  subst h3
                  rfl
                · simp at h
            · simp at h
              obtain ⟨-, -, h3⟩ := h
              subst h3
              rfl
        · dsimp only at h
          rcases hrec : loadGo n st w (.inr (rest, eid)) with ⟨stA, wA, res⟩
          rw [hrec] at h
          rcases res with e0 | v0
          · simp at h
            obtain ⟨-, -, h3⟩ := h
            subst h3
            exact ih _ _ _ _ _ _ hrec
          · rcases v0 with ln | ls
            · simp at h
              obtain ⟨-, -, h3⟩ := h
              subst h3
              rfl
            · simp at h

/-- `_load_model`'s entry point never raises a `RenderError`. -/
theorem loadModel_err (fuel : Nat) (st : CoreLayout) (w : World) (nd : PNode)
    (eid : String) (st' : CoreLayout) (w' : World) (e : PyErr)
    (h : loadModel fuel st w nd eid = (st', w', .error e)) : e.isRenderErr = false := by
  rw [loadModel] at h
  repeat' split at h
  all_goals simp at h
  all_goals obtain ⟨-, -, h3⟩ := h
  all_goals subst h3
  any_goals rfl
  all_goals solve_by_elim [loadGo_err]

/-- `_reset_element_state` never raises a `RenderError`. -/
theorem resetElementState_err (fuel : Nat) (st : CoreLayout) (w : World)
    (element : Elem) (st' : CoreLayout) (w' : World) (e : PyErr)
    (h : resetElementState fuel st w element = (st', w', some e)) :
    e.isRenderErr = false := by
  rw [resetElementState] at h
  repeat' split at h
  all_goals simp at h
  all_goals obtain ⟨-, -, h3⟩ := h
  all_goals subst h3
  any_goals rfl
  all_goals solve_by_elim [deleteGo_err]

/-- A failing render call records its element among the world's failures. -/
theorem callRender_fail (w : World) (e : Elem) (w' : World) (msg : String)
    (h : callRender w e = (w', .fail msg)) : e.eid ∈ w'.failures := by
  rw [callRender] at h
  dsimp only at h
  split at h
  · simp at h
    obtain ⟨h1, -⟩ := h
    subst h1
    simp
  · simp_all

/-- Shape of every `RenderError` escaping the render walk: either some
element named in the wrap chain had its render operation raise, or the
underlying cause was a `KeyError` from the Layout's own bookkeeping; and
when the walk was entered to render one element, the outermost wrap names
that element. -/
theorem renderGo_err_chain (fuel : Nat) :
    ∀ (st : CoreLayout) (w : World)
      (task : Sum (Elem × Option String) (List PVal × String))
      (pairs : List (String × LNode)) (st' : CoreLayout) (w' : World)
      (ch : List String) (cause : String),
      renderGo fuel st w task = (pairs, st', w', some (.renderError ch cause)) →
      ((∃ lid, lid ∈ ch ∧ lid ∈ w'.failures) ∨ ∃ k, cause = "KeyError: " ++ k)
      ∧ ∀ (e : Elem) (pid : Option String), task = .inl (e, pid) →
          ch.head? = some e.eid := by
  induction fuel with
  | zero =>
    intro st w task pairs st' w' ch cause h
    rcases task with ⟨el, pid⟩ | ⟨l, eid⟩
    · simp [renderGo] at h
    · rcases l with - | ⟨c, rest⟩
      · simp [renderGo] at h
      · simp [renderGo] at h
  | succ n ih =>
    intro st w task pairs st' w' ch cause h
    rcases task with ⟨el, pid⟩ | ⟨l, eid⟩
    · simp only [renderGo] at h
      try dsimp only at h
      rcases h0 : (if amem st.elementState el.eid = true then resetElementState n st w el
          else ((createElementState st w el pid).1, (createElementState st w el pid).2, none))
        with ⟨stA, wA, errA⟩
      rw [h0] at h
      rcases errA with - | eA
      · try dsimp only at h
        rcases hc : callRender wA el with ⟨wB, outB⟩
        rw [hc] at h
        rcases outB with nB | eB | msgB
        · try dsimp only at h
          rcases hw : renderGo n stA wB (.inr ([.node nB], el.eid))
            with ⟨pairsW, stW, wW, errW⟩
          rw [hw] at h
          rcases errW with - | eW
          · try dsimp only at h
            rcases hl : loadModel n stW wW nB el.eid with ⟨stL, wL, resL⟩
            rw [hl] at h
            rcases resL with eL | lm
            · simp at h
              obtain ⟨-, -, hw3, h4⟩ := h
              have hshape := loadModel_err n stW wW nB el.eid stL wL eL hl
              rcases eL with ⟨ch0, c0⟩ | k | -
              · simp [PyErr.isRenderErr] at hshape
              · simp [wrapErr] at h4
                obtain ⟨hch, hcause⟩ := h4
                refine ⟨Or.inr ⟨k, hcause.symm⟩, ?_⟩
                intro e' pid' ht
                cases ht
                rw [← hch]
                rfl
              · simp [wrapErr] at h4
            · simp at h
          · simp at h
            obtain ⟨-, -, hw3, h4⟩ := h
            rcases eW with ⟨ch0, c0⟩ | k | -
            · simp [wrapErr] at h4
              obtain ⟨hch, hcause⟩ := h4
              have hrec := ih stA wB (.inr ([.node nB], el.eid)) pairsW stW wW ch0 c0 hw
              refine ⟨?_, ?_⟩
              · rcases hrec.1 with ⟨lid, hmem, hfail⟩ | ⟨k, hk⟩
                · exact Or.inl ⟨lid, by rw [← hch]; exact List.mem_cons_of_mem _ hmem,
                    by rw [← hw3]; exact hfail⟩
                · exact Or.inr ⟨k, hcause ▸ hk⟩
              · intro e' pid' ht
                cases ht
                rw [← hch]
                rfl
            · simp [wrapErr] at h4
              obtain ⟨hch, hcause⟩ := h4
              refine ⟨Or.inr ⟨k, hcause.symm⟩, ?_⟩
              intro e' pid' ht
              cases ht
              rw [← hch]
              rfl
            · simp [wrapErr] at h4
        · try dsimp only at h
          rcases hw : renderGo n stA wB
              (.inr ([.node (PNode.mk "div" (some (.many [.elem eB])) none none)], el.eid))
            with ⟨pairsW, stW, wW, errW⟩
          rw [hw] at h
          rcases errW with - | eW
          · try dsimp only at h
            rcases hl : loadModel n stW wW
                (PNode.mk "div" (some (.many [.elem eB])) none none) el.eid
              with ⟨stL, wL, resL⟩
            rw [hl] at h
            rcases resL with eL | lm
            · simp at h
              obtain ⟨-, -, hw3, h4⟩ := h
              have hshape := loadModel_err n stW wW _ el.eid stL wL eL hl
              rcases eL with ⟨ch0, c0⟩ | k | -
              · simp [PyErr.isRenderErr] at hshape
              · simp [wrapErr] at h4
                obtain ⟨hch, hcause⟩ := h4
                refine ⟨Or.inr ⟨k, hcause.symm⟩, ?_⟩
                intro e' pid' ht
                cases ht
                rw [← hch]
                rfl
              · simp [wrapErr] at h4
            · simp at h
          · simp at h
            obtain ⟨-, -, hw3, h4⟩ := h
            rcases eW with ⟨ch0, c0⟩ | k | -
            · simp [wrapErr] at h4
              obtain ⟨hch, hcause⟩ := h4
              have hrec := ih stA wB _ pairsW stW wW ch0 c0 hw
              refine ⟨?_, ?_⟩
              · rcases hrec.1 with ⟨lid, hmem, hfail⟩ | ⟨k, hk⟩
                · exact Or.inl ⟨lid, by rw [← hch]; exact List.mem_cons_of_mem _ hmem,
                    by rw [← hw3]; exact hfail⟩
                · exact Or.inr ⟨k, hcause ▸ hk⟩
              · intro e' pid' ht
                cases ht
                rw [← hch]
                rfl
            · simp [wrapErr] at h4
              obtain ⟨hch, hcause⟩ := h4
              refine ⟨Or.inr ⟨k, hcause.symm⟩, ?_⟩
              intro e' pid' ht
              cases ht
              rw [← hch]
              rfl
            · simp [wrapErr] at h4
        · simp at h
          obtain ⟨-, -, hw3, hch, hcause⟩ := h
          refine ⟨Or.inl ⟨el.eid, ?_, ?_⟩, ?_⟩
          · rw [← hch]
            simp
          · rw [← hw3]
            exact callRender_fail wA el wB msgB hc
          · intro e' pid' ht
            cases ht
            rw [← hch]
            rfl
      · simp at h
        obtain ⟨-, -, -, h4⟩ := h
        by_cases hm : amem st.elementState el.eid = true
        · rw [if_pos hm] at h0
          have hshape := resetElementState_err n st w el stA wA eA h0
          rcases eA with ⟨ch0, c0⟩ | k | -
          · simp [PyErr.isRenderErr] at hshape
          · simp [wrapErr] at h4
            obtain ⟨hch, hcause⟩ := h4
            refine ⟨Or.inr ⟨k, hcause.symm⟩, ?_⟩
            intro e' pid' ht
            cases ht
            rw [← hch]
            rfl
          · simp [wrapErr] at h4
        · rw [if_neg hm] at h0
          simp at h0
    · rcases l with - | ⟨c, rest⟩
      · simp [renderGo] at h
      · simp only [renderGo] at h
        rcases c with ce | cn | cs
        · try dsimp only at h
          rcases hr1 : renderGo n st w (.inl (ce, some eid)) with ⟨pairs1, st1, w1, err1⟩
          rw [hr1] at h
          rcases err1 with - | e1
          · try dsimp only at h
            rcases hr2 : renderGo n st1 w1 (.inr (rest, eid)) with ⟨pairs2, st2, w2, err2⟩
            rw [hr2] at h
            rcases err2 with - | e2
            · simp at h
            · simp at h
              obtain ⟨-, -, hw3, h4⟩ := h
              subst h4
              have hrec := ih st1 w1 (.inr (rest, eid)) pairs2 st2 w2 ch cause hr2
              refine ⟨?_, ?_⟩
              · rcases hrec.1 with ⟨lid, hmem, hfail⟩ | hk
                · exact Or.inl ⟨lid, hmem, by rw [← hw3]; exact hfail⟩
                · exact Or.inr hk
              · intro e' pid' ht
                simp at ht
          · simp at h
            obtain ⟨-, -, hw3, h4⟩ := h
            subst h4
            have hrec := ih st w (.inl (ce, some eid)) pairs1 st1 w1 ch cause hr1
            refine ⟨?_, ?_⟩
            · rcases hrec.1 with ⟨lid, hmem, hfail⟩ | hk
              · exact Or.inl ⟨lid, hmem, by rw [← hw3]; exact hfail⟩
              · exact Or.inr hk
            · intro e' pid' ht
              simp at ht
        · try dsimp only at h
          refine ⟨(ih _ _ _ _ _ _ _ _ h).1, ?_⟩
          intro e' pid' ht
          simp at ht
        · try dsimp only at h
          refine ⟨(ih _ _ _ _ _ _ _ _ h).1, ?_⟩
          intro e' pid' ht
          simp at ht

/-- The partial `LayoutUpdate` that `Layout._render`'s `finally` block
assembles (src/idom/core/layout.py lines 141-148): the updated element as
source, the pairs yielded so far folded into `new`, and the entry-time ids
no longer tracked as `old`. -/
def partialUpdateOf (element : Elem) (st st' : CoreLayout)
    (pairs : List (String × LNode)) : LayoutUpdate :=
  { src := element.eid,
    new := pairs.foldl (fun d p => aset d p.1 p.2) [],
    old := (akeys st.elementState).filter (fun k => ¬ amem st'.elementState k) }

/-- C5: whenever rendering an element (its own render operation or any
element reached during the model walk) raises, `Layout._render` re-raises
a `RenderError` and attaches as `partial_render` the partial
`LayoutUpdate`: `src` is the updated element, `new` holds exactly the
models yielded before the failure, and `old` exactly the ids tracked at
entry that are no longer tracked at the failure point.  The error's wrap
chain starts at the updated element, and either some element in the chain
is one whose render operation actually raised, or the cause was a
`KeyError` of the Layout's own bookkeeping. -/
theorem render_error_partial_update (fuel : Nat) (st : CoreLayout) (w : World)
    (element : Elem) (parent : Option String) (pairs : List (String × LNode))
    (st' : CoreLayout) (w' : World) (ch : List String) (cause : String)
    (hp : elementParentOf st element = .ok parent)
    (hr : renderElementCore fuel st w element parent
        = (pairs, st', w', some (.renderError ch cause))) :
    coreRenderOne fuel st w element = (st', w',
      .rfail ⟨ch, cause, some (partialUpdateOf element st st' pairs)⟩)
    ∧ ch.head? = some element.eid
    ∧ ((∃ lid, lid ∈ ch ∧ lid ∈ w'.failures) ∨ ∃ k, cause = "KeyError: " ++ k) := by
  have hchain := renderGo_err_chain fuel st w (.inl (element, parent))
    pairs st' w' ch cause hr
  refine ⟨?_, hchain.2 element parent rfl, hchain.1⟩
  rw [coreRenderOne, hp]
  dsimp only
  rw [hr]
  dsimp only
  rfl

/-- The C5 failing child: its render operation always raises. -/
def failElem : Elem := .mk "B" (fun _ => .fail "boom")

/-- The C5 root: renders a node whose children are a healthy element `A`
and the failing element `B`. -/
def c5Root : Elem :=
  .mk "R" (fun _ => .node (PNode.mk "div"
    (some (.many [.elem (leafElem "A" "span"), .elem failElem])) none none))

/-- The C5 starting layout state. -/
def c5Layout0 : CoreLayout := { elementState := [], eventHandlers := [], rootId := "R" }

/-- The C5 failing render run. -/
def c5Run : List (String × LNode) × CoreLayout × World × Option PyErr :=
  renderElementCore 20 c5Layout0 World.init c5Root none

/-- C5 witness: on the concrete failing scenario, the raised error's chain
is `[R, B]` (`Failed to render R`, caused by `Failed to render B`), and
the attached partial update carries `A`'s already-yielded model and the
ids deleted so far. -/
theorem render_error_partial_update_witness :
    elementParentOf c5Layout0 c5Root = .ok none
    ∧ (coreRenderOne 20 c5Layout0 World.init c5Root = (c5Run.2.1, c5Run.2.2.1,
        .rfail ⟨["R", "B"], "boom", some (partialUpdateOf c5Root c5Layout0 c5Run.2.1 c5Run.1)⟩)
      ∧ (["R", "B"] : List String).head? = some "R"
      ∧ ((∃ lid, lid ∈ (["R", "B"] : List String) ∧ lid ∈ c5Run.2.2.1.failures)
          ∨ ∃ k, "boom" = "KeyError: " ++ k)) :=
  ⟨rfl, render_error_partial_update 20 c5Layout0 World.init c5Root none
    c5Run.1 c5Run.2.1 c5Run.2.2.1 ["R", "B"] "boom" rfl rfl⟩

/-! ### Association-list surgery lemmas for the deletion proof (C6) -/

theorem akeys_cons {A : Type} (kv : String × A) (rest : List (String × A)) :
    akeys (kv :: rest) = kv.1 :: akeys rest := rfl

theorem amem_iff_keys {A : Type} (l : List (String × A)) (k : String) :
    amem l k = true ↔ k ∈ akeys l := by
  induction l with
  | nil => simp [amem, alookup, akeys]
  | cons kv rest ih =>
    rw [akeys_cons]
    by_cases h : kv.1 = k
    · simp [amem, alookup, h]
    · simp only [amem, alookup, h, if_false, List.mem_cons]
      constructor
      · intro hx
        exact Or.inr (ih.mp hx)
      · intro hx
        rcases hx with he | hx
        · exact absurd he.symm h
        · exact ih.mpr hx

theorem alookup_eq_none {A : Type} (l : List (String × A)) (k : String)
    (h : k ∉ akeys l) : alookup l k = none := by
  induction l with
  | nil => rfl
  | cons kv rest ih =>
    rw [akeys_cons] at h
    simp only [List.mem_cons, not_or] at h
    have hne : ¬kv.1 = k := fun he => h.1 he.symm
    simp [alookup, hne, ih h.2]

theorem alookup_append {A : Type} (l1 l2 : List (String × A)) (k : String) :
    alookup (l1 ++ l2) k
      = match alookup l1 k with
        | some v => some v
        | none => alookup l2 k := by
  induction l1 with
  | nil => simp [alookup]
  | cons kv rest ih =>
    by_cases h : kv.1 = k
    · simp [alookup, h]
    · simp [alookup, h, ih]

theorem aremove_append_left {A : Type} (l1 l2 : List (String × A)) (k : String)
    (h : k ∉ akeys l1) : aremove (l1 ++ l2) k = l1 ++ aremove l2 k := by
  induction l1 with
  | nil => simp
  | cons kv rest ih =>
    rw [akeys_cons] at h
    simp only [List.mem_cons, not_or] at h
    have hne : ¬kv.1 = k := fun he => h.1 he.symm
    simp [aremove, hne, ih h.2]

theorem aset_append_left {A : Type} (l1 l2 : List (String × A)) (k : String) (v : A)
    (h : k ∈ akeys l1) : aset (l1 ++ l2) k v = aset l1 k v ++ l2 := by
  induction l1 with
  | nil => simp [akeys] at h
  | cons kv rest ih =>
    by_cases hk : kv.1 = k
    · simp [aset, hk]
    · rw [akeys_cons] at h
      rcases List.mem_cons.mp h with he | hm
      · exact absurd he.symm hk
      · simp [aset, hk, ih hm]

theorem aset_append_right {A : Type} (l1 l2 : List (String × A)) (k : String) (v : A)
    (h : k ∉ akeys l1) : aset (l1 ++ l2) k v = l1 ++ aset l2 k v := by
  induction l1 with
  | nil => simp
  | cons kv rest ih =>
    rw [akeys_cons] at h
    simp only [List.mem_cons, not_or] at h
    have hne : ¬kv.1 = k := fun he => h.1 he.symm
    simp [aset, hne, ih h.2]

theorem akeys_aset_mem {A : Type} (l : List (String × A)) (k : String) (v : A)
    (h : k ∈ akeys l) : akeys (aset l k v) = akeys l := by
  induction l with
  | nil => simp [akeys] at h
  | cons kv rest ih =>
    by_cases hk : kv.1 = k
    · simp [aset, akeys, hk]
    · rw [akeys_cons] at h
      rcases List.mem_cons.mp h with he | hm
      · exact absurd he.symm hk
      · rw [akeys_cons]
        simp [aset, hk, akeys_cons, ih hm]

theorem amem_aremove_ne {A : Type} (l : List (String × A)) (k k' : String)
    (h : k' ≠ k) : amem (aremove l k) k' = amem l k' := by
  induction l with
  | nil => simp [aremove]
  | cons kv rest ih =>
    by_cases hk : kv.1 = k
    · simp only [aremove, if_pos hk, amem, alookup, hk]
      rw [if_neg (fun he : k = k' => h he.symm)]
      simp
    · by_cases hk' : kv.1 = k'
      · subst hk'
        simp [aremove, amem, alookup, hk]
      · simp only [aremove, if_neg hk, amem, alookup, hk', if_false]
        exact ih

theorem amem_foldl_aremove_not_mem (hs : List String) :
    ∀ (reg : List (String × EventHandler)) (h : String), h ∉ hs →
      amem (hs.foldl aremove reg) h = amem reg h := by
  induction hs with
  | nil => intro reg h _; rfl
  | cons a rest ih =>
    intro reg h hmem
    simp at hmem
    simp only [List.foldl_cons]
    rw [ih _ _ hmem.2, amem_aremove_ne _ _ _ hmem.1]

/-- Happy path of handler deregistration: all ids present and distinct. -/
theorem delHandlers_ok (hs : List String) :
    ∀ (reg : List (String × EventHandler)), hs.Nodup →
      (∀ h ∈ hs, amem reg h = true) →
      delHandlers reg hs = (hs.foldl aremove reg, none) := by
  induction hs with
  | nil => intro reg _ _; rfl
  | cons a rest ih =>
    intro reg hnd hall
    simp only [List.nodup_cons] at hnd
    have ha := hall a (by simp)
    simp only [delHandlers, ha, if_true]
    rw [ih (aremove reg a) hnd.2]
    · simp
    · intro h hm
      rw [amem_aremove_ne _ _ _ (fun he => hnd.1 (by rw [← he]; exact hm))]
      exact hall h (by simp [hm])

theorem akeys_aremove_sublist {A : Type} (l : List (String × A)) (k : String) :
    List.Sublist (akeys (aremove l k)) (akeys l) := by
  induction l with
  | nil => simp [aremove]
  | cons kv rest ih =>
    by_cases hk : kv.1 = k
    · simp only [aremove, if_pos hk]
      rw [akeys_cons]
      exact List.sublist_cons_self _ _
    · simp only [aremove, if_neg hk]
      rw [akeys_cons, akeys_cons]
      exact List.Sublist.cons₂ _ ih

theorem amem_aremove_self {A : Type} (l : List (String × A)) (k : String)
    (hnd : (akeys l).Nodup) : amem (aremove l k) k = false := by
  induction l with
  | nil => rfl
  | cons kv rest ih =>
    simp only [akeys, List.map_cons, List.nodup_cons] at hnd
    by_cases hk : kv.1 = k
    · simp only [aremove, hk, if_pos rfl]
      rw [← hk]
      by_cases hx : amem rest kv.1 = true
      · exact absurd ((amem_iff_keys rest kv.1).mp hx) hnd.1
      · simpa using hx
    · simp only [aremove, if_neg hk, amem, alookup, hk, if_false]
      simpa [amem] using ih hnd.2

theorem amem_false_foldl (hs : List String) :
    ∀ (l : List (String × EventHandler)) (x : String), amem l x = false →
      amem (hs.foldl aremove l) x = false := by
  induction hs with
  | nil => intro l x h; exact h
  | cons a rest ih =>
    intro l x h
    simp only [List.foldl_cons]
    apply ih
    by_cases hax : x = a
    · subst hax
      cases hx : amem (aremove l x) x
      · rfl
      · -- removal cannot introduce a key
        exfalso
        have := (amem_iff_keys _ x).mp hx
        have hsub := akeys_aremove_sublist l x
        have : x ∈ akeys l := hsub.mem this
        rw [(amem_iff_keys l x).mpr this] at h
        exact Bool.true_eq_false.mp h
    · rw [amem_aremove_ne _ _ _ hax]
      exact h

theorem foldl_aremove_gone (hs : List String) :
    ∀ (reg : List (String × EventHandler)) (h : String), (akeys reg).Nodup →
      h ∈ hs → amem (hs.foldl aremove reg) h = false := by
  induction hs with
  | nil => intro reg h _ hm; simp at hm
  | cons a rest ih =>
    intro reg h hnd hm
    simp only [List.foldl_cons]
    rcases List.mem_cons.mp hm with he | hm2
    · subst he
      exact amem_false_foldl rest _ _ (amem_aremove_self reg h hnd)
    · exact ih _ _ ((hnd.sublist (akeys_aremove_sublist reg a))) hm2

/-! ### Trees of element-state records (C6)

Abstract description of a subtree of the Layout's element-state map: each
node carries its id, its registered handler ids, and its element
back-reference; `flatten` lays the subtree out as the association-list
fragment the map holds for it, rooted records first. -/

mutual

inductive STree where
  | node : String → List String → Elem → SForest → STree

inductive SForest where
  | nil : SForest
  | cons : STree → SForest → SForest

end

def STree.rootId : STree → String
  | .node i _ _ _ => i

def SForest.rootIds : SForest → List String
  | .nil => []
  | .cons t f => t.rootId :: f.rootIds

mutual

def STree.flatten : Option String → STree → List (String × ElemRecord)
  | parent, .node i hs el f =>
    (i, { parent := parent, innerElements := f.rootIds, eventHandlers := hs,
          elementRef := el }) :: f.flattenAll (some i)

def SForest.flattenAll : Option String → SForest → List (String × ElemRecord)
  | _, .nil => []
  | parent, .cons t f => t.flatten parent ++ f.flattenAll parent

end

mutual

def STree.ids : STree → List String
  | .node i _ _ f => i :: f.idsAll

def SForest.idsAll : SForest → List String
  | .nil => []
  | .cons t f => t.ids ++ f.idsAll

end

mutual

def STree.handlerIds : STree → List String
  | .node _ hs _ f => hs ++ f.handlerIdsAll

def SForest.handlerIdsAll : SForest → List String
  | .nil => []
  | .cons t f => t.handlerIds ++ f.handlerIdsAll

end

mutual

def STree.postord : STree → List String
  | .node i _ _ f => f.postordAll ++ [i]

def SForest.postordAll : SForest → List String
  | .nil => []
  | .cons t f => t.postord ++ f.postordAll

end

/-- The unmount calls produced by deleting a subtree: all descendants in
postorder, then the root itself only when its own `unmount` flag is set. -/
def STree.delUnmounts : STree → Bool → List String
  | .node i _ _ f, unm => f.postordAll ++ (if unm then [i] else [])

mutual

def STree.fcost : STree → Nat
  | .node _ _ _ f => 1 + f.fcostAll

def SForest.fcostAll : SForest → Nat
  | .nil => 0
  | .cons t f => 1 + t.fcost + f.fcostAll

end

/-- What `_delete_element_state`'s parent fixup does to the two context
fragments surrounding the deleted subtree. -/
def adjustTwo (r1 r2 : List (String × ElemRecord)) (parent : Option String)
    (rid : String) : List (String × ElemRecord) × List (String × ElemRecord) :=
  match parent with
  | none => (r1, r2)
  | some p =>
    match alookup r1 p with
    | some prec =>
      (aset r1 p { prec with innerElements := prec.innerElements.erase rid }, r2)
    | none =>
      match alookup r2 p with
      | some prec =>
        (r1, aset r2 p { prec with innerElements := prec.innerElements.erase rid })
      | none => (r1, r2)

/-- Precondition on the deleted root's parent pointer: it is not inside the
subtree, and if its record is tracked in the surrounding context, that
record's `inner_elements` contains the deleted id (else Python
`set.remove` raises). -/
def parentCond (parent : Option String) (rid : String) (ids : List String)
    (r1 r2 : List (String × ElemRecord)) : Prop :=
  match parent with
  | none => True
  | some p =>
    p ∉ ids
    ∧ (match alookup r1 p with
       | some prec => rid ∈ prec.innerElements
       | none =>
         match alookup r2 p with
         | some prec => rid ∈ prec.innerElements
         | none => True)

theorem adjustTwo_keys_left (r1 r2 : List (String × ElemRecord))
    (parent : Option String) (rid : String) :
    akeys (adjustTwo r1 r2 parent rid).1 = akeys r1 := by
  rw [adjustTwo.eq_def]
  repeat' split
  all_goals simp_all
  rename_i p hp
  exact akeys_aset_mem _ _ _ ((amem_iff_keys _ _).mp (by simp [amem, hp]))

theorem adjustTwo_keys_right (r1 r2 : List (String × ElemRecord))
    (parent : Option String) (rid : String) :
    akeys (adjustTwo r1 r2 parent rid).2 = akeys r2 := by
  rw [adjustTwo.eq_def]
  repeat' split
  all_goals simp_all
  rename_i p _ hp
  exact akeys_aset_mem _ _ _ ((amem_iff_keys _ _).mp (by simp [amem, hp]))

theorem adjustTwo_not_mem (r1 r2 : List (String × ElemRecord)) (p rid : String)
    (h1 : p ∉ akeys r1) (h2 : p ∉ akeys r2) :
    adjustTwo r1 r2 (some p) rid = (r1, r2) := by
  rw [adjustTwo.eq_def]
  simp [alookup_eq_none _ _ h1, alookup_eq_none _ _ h2]

theorem alookup_mem_keys {A : Type} (l : List (String × A)) (k : String) (v : A)
    (h : alookup l k = some v) : k ∈ akeys l := by
  by_contra hn
  rw [alookup_eq_none l k hn] at h
  exact absurd h (by simp)

theorem not_mem_keys_of_alookup_none {A : Type} (l : List (String × A)) (k : String)
    (h : alookup l k = none) : k ∉ akeys l := by
  intro hin
  have := (amem_iff_keys l k).mpr hin
  rw [amem, h] at this
  exact absurd this (by simp)

/-- The parent fixup on a three-part state `r1 ++ tail ++ r2` where the
parent is not a key of `tail`: it succeeds and only adjusts the context. -/
theorem removeFromParent_ctx (r1 tail r2 : List (String × ElemRecord))
    (reg : List (String × EventHandler)) (rt : String) (parent : Option String)
    (rid : String)
    (htail : ∀ p, parent = some p → p ∉ akeys tail)
    (hcond : parentCond parent rid [] r1 r2) :
    removeFromParent ⟨r1 ++ tail ++ r2, reg, rt⟩ parent rid
      = (⟨(adjustTwo r1 r2 parent rid).1 ++ tail ++ (adjustTwo r1 r2 parent rid).2,
          reg, rt⟩, none) := by
  cases parent with
  | none => rfl
  | some p =>
    obtain ⟨-, hcond2⟩ := hcond
    rw [removeFromParent]
    dsimp only
    have hall : alookup (r1 ++ (tail ++ r2)) p
        = match alookup r1 p with
          | some v => some v
          | none => alookup r2 p := by
      rw [alookup_append, alookup_append tail r2 p,
        alookup_eq_none tail p (htail p rfl)]
      rcases alookup r1 p with - | v <;> rfl
    rcases hr1 : alookup r1 p with - | prec1
    · rcases hr2 : alookup r2 p with - | prec2
      · rw [hr1, hr2] at hall
        rw [show r1 ++ tail ++ r2 = r1 ++ (tail ++ r2) from List.append_assoc r1 tail r2]
        rw [hall]
        simp [adjustTwo, hr1, hr2]
      · rw [hr1, hr2] at hall
        rw [hr1, hr2] at hcond2
        rw [show r1 ++ tail ++ r2 = r1 ++ (tail ++ r2) from List.append_assoc r1 tail r2]
        rw [hall]
        dsimp only
        rw [if_pos hcond2]
        have hp1 : p ∉ akeys r1 := not_mem_keys_of_alookup_none r1 p hr1
        rw [aset_append_right r1 (tail ++ r2) p _ hp1,
          aset_append_right tail r2 p _ (htail p rfl)]
        simp [adjustTwo, hr1, hr2, List.append_assoc]
    · rw [hr1] at hall
      rw [hr1] at hcond2
      rw [show r1 ++ tail ++ r2 = r1 ++ (tail ++ r2) from List.append_assoc r1 tail r2]
      rw [hall]
      dsimp only
      rw [if_pos hcond2]
      have hp1 : p ∈ akeys r1 := alookup_mem_keys r1 p prec1 hr1
      rw [aset_append_left r1 (tail ++ r2) p _ hp1]
      simp [adjustTwo, hr1, List.append_assoc]

theorem akeys_append {A : Type} (l1 l2 : List (String × A)) :
    akeys (l1 ++ l2) = akeys l1 ++ akeys l2 := by
  simp [akeys]

theorem akeys_foldl_aremove_sublist (hs : List String) :
    ∀ (reg : List (String × EventHandler)),
      List.Sublist (akeys (hs.foldl aremove reg)) (akeys reg) := by
  induction hs with
  | nil => intro reg; exact List.Sublist.refl _
  | cons a rest ih =>
    intro reg
    simp only [List.foldl_cons]
    exact (ih (aremove reg a)).trans (akeys_aremove_sublist reg a)

mutual

theorem STree.akeys_flatten : ∀ (parent : Option String) (t : STree),
    akeys (t.flatten parent) = t.ids
  | parent, .node i hs el f => by
    rw [STree.flatten, STree.ids, akeys_cons, SForest.akeys_flattenAll]

theorem SForest.akeys_flattenAll : ∀ (parent : Option String) (f : SForest),
    akeys (f.flattenAll parent) = f.idsAll
  | _, .nil => rfl
  | parent, .cons t f => by
    rw [SForest.flattenAll, SForest.idsAll, akeys_append, STree.akeys_flatten,
      SForest.akeys_flattenAll]

end

theorem STree.delUnmounts_true (t : STree) : t.delUnmounts true = t.postord := by
  cases t with
  | node i hs el f => simp [STree.delUnmounts, STree.postord]

/-- Exact effect of `_delete_element_state` on a state that holds a whole
subtree laid out between two context fragments: every record of the
subtree is popped, the tracked parent's `inner_elements` loses the deleted
root, every handler id owned by the subtree's records leaves the registry,
and the descendants are unmounted in postorder (the root itself only when
the `unmount` flag is set). -/
theorem deleteGo_subtree (fuel : Nat) :
    (∀ (t : STree) (parent : Option String) (r1 r2 : List (String × ElemRecord))
      (reg : List (String × EventHandler)) (rt : String) (w : World) (unm : Bool),
      t.fcost ≤ fuel →
      (∀ x ∈ t.ids, x ∉ akeys r1) →
      (∀ x ∈ t.ids, x ∉ akeys r2) →
      t.ids.Nodup →
      t.handlerIds.Nodup →
      (∀ h ∈ t.handlerIds, amem reg h = true) →
      (akeys reg).Nodup →
      parentCond parent t.rootId t.ids r1 r2 →
      deleteGo fuel ⟨r1 ++ t.flatten parent ++ r2, reg, rt⟩ w (.inl (t.rootId, unm))
        = (⟨(adjustTwo r1 r2 parent t.rootId).1 ++ (adjustTwo r1 r2 parent t.rootId).2,
            t.handlerIds.foldl aremove reg, rt⟩,
           { w with unmounts := w.unmounts ++ t.delUnmounts unm }, none))
    ∧ (∀ (f : SForest) (pid : String) (r1 r2 : List (String × ElemRecord))
      (reg : List (String × EventHandler)) (rt : String) (w : World),
      f.fcostAll ≤ fuel →
      (∀ x ∈ f.idsAll, x ∉ akeys r1) →
      (∀ x ∈ f.idsAll, x ∉ akeys r2) →
      f.idsAll.Nodup →
      f.handlerIdsAll.Nodup →
      (∀ h ∈ f.handlerIdsAll, amem reg h = true) →
      (akeys reg).Nodup →
      pid ∉ akeys r1 → pid ∉ akeys r2 → pid ∉ f.idsAll →
      deleteGo fuel ⟨r1 ++ f.flattenAll (some pid) ++ r2, reg, rt⟩ w (.inr f.rootIds)
        = (⟨r1 ++ r2, f.handlerIdsAll.foldl aremove reg, rt⟩,
           { w with unmounts := w.unmounts ++ f.postordAll }, none)) := by
  induction fuel using Nat.strong_induction_on with
  | _ fuel IH =>
  constructor
  · rintro ⟨i, hs, el, f⟩ parent r1 r2 reg rt w unm hfc hk1 hk2 hnd hhnd hreg hregnd hpc
    simp only [STree.fcost] at hfc
    simp only [STree.rootId, STree.ids, STree.handlerIds] at hk1 hk2 hnd hhnd hreg hpc
    cases fuel with
    | zero => omega
    | succ n =>
      have hi1 : i ∉ akeys r1 := hk1 i (by simp)
      have hi2 : i ∉ akeys r2 := hk2 i (by simp)
      have hsub1 : ∀ x ∈ f.idsAll, x ∉ akeys r1 := fun x hx => hk1 x (by simp [hx])
      have hsub2 : ∀ x ∈ f.idsAll, x ∉ akeys r2 := fun x hx => hk2 x (by simp [hx])
      obtain ⟨hinotf, hfnd⟩ := List.nodup_cons.mp hnd
      obtain ⟨hhs, hfh, hdisj⟩ := List.nodup_append.mp hhnd
      have hregs : ∀ h ∈ hs, amem reg h = true :=
        fun h hm => hreg h (List.mem_append_left _ hm)
      have hregf : ∀ h ∈ f.handlerIdsAll, amem reg h = true :=
        fun h hm => hreg h (List.mem_append_right _ hm)
      have htailkeys : akeys (SForest.flattenAll (some i) f) = f.idsAll :=
        SForest.akeys_flattenAll (some i) f
      have htail : ∀ p, parent = some p → p ∉ akeys (SForest.flattenAll (some i) f) := by
        intro p hp
        subst hp
        simp only [parentCond] at hpc
        rw [htailkeys]
        exact fun hm => hpc.1 (List.mem_cons_of_mem _ hm)
      have hpc0 : parentCond parent i [] r1 r2 := by
        cases parent with
        | none => simp [parentCond]
        | some p =>
          simp only [parentCond] at hpc ⊢
          exact ⟨List.not_mem_nil p, hpc.2⟩
      simp only [STree.rootId, STree.flatten]
      rw [deleteGo]
      dsimp only
      have hlook : alookup (r1 ++
          ((i, ({ parent := parent, innerElements := f.rootIds,
                  eventHandlers := hs, elementRef := el } : ElemRecord))
            :: SForest.flattenAll (some i) f) ++ r2) i
          = some { parent := parent, innerElements := f.rootIds,
                   eventHandlers := hs, elementRef := el } := by
        rw [List.append_assoc, alookup_append, alookup_eq_none r1 i hi1]
        simp [alookup]
      rw [hlook]
      dsimp only
      have hrem : aremove (r1 ++
          ((i, ({ parent := parent, innerElements := f.rootIds,
                  eventHandlers := hs, elementRef := el } : ElemRecord))
            :: SForest.flattenAll (some i) f) ++ r2) i
          = r1 ++ (SForest.flattenAll (some i) f ++ r2) := by
        rw [List.append_assoc, aremove_append_left r1 _ i hi1]
        simp [aremove]
      rw [hrem]
      have hrfp : removeFromParent
          ⟨r1 ++ (SForest.flattenAll (some i) f ++ r2), reg, rt⟩ parent i
          = (⟨(adjustTwo r1 r2 parent i).1 ++ SForest.flattenAll (some i) f
                ++ (adjustTwo r1 r2 parent i).2, reg, rt⟩, none) := by
        rw [← List.append_assoc]
        exact removeFromParent_ctx r1 (SForest.flattenAll (some i) f) r2 reg rt
          parent i htail hpc0
      rw [hrfp]
      dsimp only
      have hdel : delHandlers reg hs = (hs.foldl aremove reg, none) :=
        delHandlers_ok hs reg hhs hregs
      rw [hdel]
      dsimp only
      have hforest := (IH n (Nat.lt_succ_self n)).2 f i
        (adjustTwo r1 r2 parent i).1 (adjustTwo r1 r2 parent i).2
        (hs.foldl aremove reg) rt w
        (by omega)
        (by rw [adjustTwo_keys_left]; exact hsub1)
        (by rw [adjustTwo_keys_right]; exact hsub2)
        hfnd hfh
        (fun h hm => by
          rw [amem_foldl_aremove_not_mem hs reg h (fun hmem => hdisj hmem hm)]
          exact hregf h hm)
        (hregnd.sublist (akeys_foldl_aremove_sublist hs reg))
        (by rw [adjustTwo_keys_left]; exact hi1)
        (by rw [adjustTwo_keys_right]; exact hi2)
        hinotf
      rw [hforest]
      dsimp only
      cases unm <;>
        simp [STree.delUnmounts, STree.handlerIds, List.foldl_append,
          List.append_assoc]
  · rintro f pid r1 r2 reg rt w hfc hk1 hk2 hnd hhnd hreg hregnd hp1 hp2 hpids
    cases f with
    | nil =>
      simp only [SForest.flattenAll, SForest.rootIds, SForest.handlerIdsAll,
        SForest.postordAll]
      simp [deleteGo]
    | cons t f2 =>
      simp only [SForest.fcostAll] at hfc
      simp only [SForest.idsAll, SForest.handlerIdsAll] at hk1 hk2 hnd hhnd hreg
      simp only [SForest.idsAll] at hpids
      cases fuel with
      | zero => omega
      | succ n =>
        obtain ⟨hndt, hndf, hdisj_ids⟩ := List.nodup_append.mp hnd
        obtain ⟨hht, hhf, hdisj_h⟩ := List.nodup_append.mp hhnd
        have hk1t : ∀ x ∈ t.ids, x ∉ akeys r1 :=
          fun x hx => hk1 x (List.mem_append_left _ hx)
        have hk2t : ∀ x ∈ t.ids, x ∉ akeys r2 :=
          fun x hx => hk2 x (List.mem_append_left _ hx)
        have hk1f : ∀ x ∈ f2.idsAll, x ∉ akeys r1 :=
          fun x hx => hk1 x (List.mem_append_right _ hx)
        have hk2f : ∀ x ∈ f2.idsAll, x ∉ akeys r2 :=
          fun x hx => hk2 x (List.mem_append_right _ hx)
        have hregt : ∀ h ∈ t.handlerIds, amem reg h = true :=
          fun h hm => hreg h (List.mem_append_left _ hm)
        have hregf2 : ∀ h ∈ f2.handlerIdsAll, amem reg h = true :=
          fun h hm => hreg h (List.mem_append_right _ hm)
        have hpidt : pid ∉ t.ids := fun hm => hpids (List.mem_append_left _ hm)
        have hpidf2 : pid ∉ f2.idsAll := fun hm => hpids (List.mem_append_right _ hm)
        have hlf2 : alookup (SForest.flattenAll (some pid) f2) pid = none :=
          alookup_eq_none _ _ (by rw [SForest.akeys_flattenAll]; exact hpidf2)
        have hpcT : parentCond (some pid) t.rootId t.ids r1
            (SForest.flattenAll (some pid) f2 ++ r2) := by
          simp only [parentCond]
          refine ⟨hpidt, ?_⟩
          rw [alookup_eq_none r1 pid hp1]
          simp [alookup_append, hlf2, alookup_eq_none r2 pid hp2]
        have hk2t' : ∀ x ∈ t.ids, x ∉ akeys (SForest.flattenAll (some pid) f2 ++ r2) := by
          intro x hx
          rw [akeys_append, SForest.akeys_flattenAll]
          intro hm
          rcases List.mem_append.mp hm with hm | hm
          · exact hdisj_ids hx hm
          · exact hk2t x hx hm
        have htree := (IH n (Nat.lt_succ_self n)).1 t (some pid) r1
          (SForest.flattenAll (some pid) f2 ++ r2) reg rt w true
          (by omega) hk1t hk2t' hndt hht hregt hregnd hpcT
        have hadj : adjustTwo r1 (SForest.flattenAll (some pid) f2 ++ r2)
            (some pid) t.rootId
            = (r1, SForest.flattenAll (some pid) f2 ++ r2) := by
          refine adjustTwo_not_mem _ _ _ _ hp1 ?_
          rw [akeys_append, SForest.akeys_flattenAll]
          intro hm
          rcases List.mem_append.mp hm with hm | hm
          · exact hpidf2 hm
          · exact hp2 hm
        rw [hadj, STree.delUnmounts_true] at htree
        simp only [SForest.rootIds, SForest.flattenAll]
        rw [deleteGo]
        simp only [List.append_assoc]
        simp only [List.append_assoc] at htree
        rw [htree]
        dsimp only
        have hforest := (IH n (Nat.lt_succ_self n)).2 f2 pid r1 r2
          (t.handlerIds.foldl aremove reg) rt
          { w with unmounts := w.unmounts ++ t.postord }
          (by omega) hk1f hk2f hndf hhf
          (fun h hm => by
            rw [amem_foldl_aremove_not_mem t.handlerIds reg h
              (fun hmem => hdisj_h hmem hm)]
            exact hregf2 h hm)
          (hregnd.sublist (akeys_foldl_aremove_sublist t.handlerIds reg))
          hp1 hp2 hpidf2
        simp only [List.append_assoc] at hforest
        rw [hforest]
        simp [SForest.handlerIdsAll, SForest.postordAll, List.foldl_append,
          List.append_assoc]

/-- One `_delete_element_state` call on a state holding the subtree `t`
laid out between two context fragments. -/
def deleteSubtreeRun (fuel : Nat) (t : STree) (parent : Option String)
    (r1 r2 : List (String × ElemRecord)) (reg : List (String × EventHandler))
    (rt : String) (w : World) (unm : Bool) : CoreLayout × World × Option PyErr :=
  deleteElementState fuel ⟨r1 ++ t.flatten parent ++ r2, reg, rt⟩ w t.rootId unm

/-- The C6 parent element: its first render returns a `div` with children
`A` and `B` (each registering one event handler), every later render a
childless `div`. -/
def c6Parent : Elem :=
  .mk "P" (fun n =>
    if n = 0 then
      .node (PNode.mk "div" (some (.many
        [.elem (childWithHandler "A" "hA"), .elem (childWithHandler "B" "hB")]))
        none none)
    else .node (PNode.mk "div" none none none))

/-- The core layout after the first render pass of the C6 scenario. -/
def c6AfterFirst : CoreSt := (coreRender 30 (coreInit c6Parent)).1

/-- The second render pass: the already-mounted parent re-renders to zero
children. -/
def c6Second : CoreSt × RenderResult := coreRender 30 (coreUpdate c6Parent c6AfterFirst)

/-- The `LayoutUpdate` of a successful `render()` call. -/
def RenderResult.okUpdate : RenderResult → Option LayoutUpdate
  | .ok u => some u
  | _ => none

/-- Concrete subtree, surrounding context and handler registry
instantiating the general deletion statement. -/
def c6Tree : STree :=
  .node "X" ["h1"] (leafElem "X" "div")
    (.cons (.node "Y" ["h2"] (leafElem "Y" "span") .nil) .nil)

def c6Ctx : List (String × ElemRecord) :=
  [("Q", { parent := none, innerElements := ["X"], eventHandlers := [],
           elementRef := leafElem "Q" "div" })]

def c6Reg : List (String × EventHandler) := [("h1", ⟨"h1"⟩), ("h2", ⟨"h2"⟩)]

/-- C6: deleting an element's state removes the records of all of the
element's descendants from the element-state map and deregisters every
handler id owned by those records, so `trigger` on any of them becomes a
silent no-op; concretely, re-rendering an element with two mounted
children (each having registered an event handler) to zero children
yields a `LayoutUpdate` whose `old` contains both children's ids, and a
subsequent `trigger` targeting either child's handler id invokes no
handler and raises no error. -/
theorem delete_element_state_completeness (fuel : Nat) (t : STree)
    (parent : Option String) (r1 r2 : List (String × ElemRecord))
    (reg : List (String × EventHandler)) (rt : String) (w : World) (unm : Bool)
    (hfuel : t.fcost ≤ fuel)
    (hk1 : ∀ x ∈ t.ids, x ∉ akeys r1)
    (hk2 : ∀ x ∈ t.ids, x ∉ akeys r2)
    (hnd : t.ids.Nodup)
    (hhnd : t.handlerIds.Nodup)
    (hreg : ∀ h ∈ t.handlerIds, amem reg h = true)
    (hregnd : (akeys reg).Nodup)
    (hpc : parentCond parent t.rootId t.ids r1 r2) :
    ((deleteSubtreeRun fuel t parent r1 r2 reg rt w unm).2.2 = none
    ∧ (∀ d ∈ t.ids,
        amem (deleteSubtreeRun fuel t parent r1 r2 reg rt w unm).1.elementState d
          = false)
    ∧ (∀ h ∈ t.handlerIds,
        amem (deleteSubtreeRun fuel t parent r1 r2 reg rt w unm).1.eventHandlers h
          = false)
    ∧ (∀ h ∈ t.handlerIds, ∀ (w2 : World) (data : List String),
        coreTrigger (deleteSubtreeRun fuel t parent r1 r2 reg rt w unm).1 w2 h data
          = w2))
    ∧ c6Second.2.okUpdate.map LayoutUpdate.old = some ["A", "B"]
    ∧ coreTrigger c6AfterFirst.layout c6AfterFirst.world "hA" ["evt"]
        = { c6AfterFirst.world with
            handled := c6AfterFirst.world.handled ++ [("hA", ["evt"])] }
    ∧ (∀ (w2 : World) (data : List String),
        coreTrigger c6Second.1.layout w2 "hA" data = w2)
    ∧ (∀ (w2 : World) (data : List String),
        coreTrigger c6Second.1.layout w2 "hB" data = w2) := by
  have hrun : deleteSubtreeRun fuel t parent r1 r2 reg rt w unm
      = (⟨(adjustTwo r1 r2 parent t.rootId).1 ++ (adjustTwo r1 r2 parent t.rootId).2,
          t.handlerIds.foldl aremove reg, rt⟩,
         { w with unmounts := w.unmounts ++ t.delUnmounts unm }, none) :=
    (deleteGo_subtree fuel).1 t parent r1 r2 reg rt w unm
      hfuel hk1 hk2 hnd hhnd hreg hregnd hpc
  have hstate : ∀ d ∈ t.ids,
      amem (deleteSubtreeRun fuel t parent r1 r2 reg rt w unm).1.elementState d
        = false := by
    intro d hd
    rw [hrun]
    dsimp only
    have hdk : d ∉ akeys ((adjustTwo r1 r2 parent t.rootId).1
        ++ (adjustTwo r1 r2 parent t.rootId).2) := by
      rw [akeys_append, adjustTwo_keys_left, adjustTwo_keys_right]
      intro hm
      rcases List.mem_append.mp hm with hm | hm
      · exact hk1 d hd hm
      · exact hk2 d hd hm
    rw [amem, alookup_eq_none _ _ hdk]
    rfl
  have hhandlers : ∀ h ∈ t.handlerIds,
      amem (deleteSubtreeRun fuel t parent r1 r2 reg rt w unm).1.eventHandlers h
        = false := by
    intro h hm
    rw [hrun]
    dsimp only
    exact foldl_aremove_gone t.handlerIds reg h hregnd hm
  refine ⟨⟨by rw [hrun], hstate, hhandlers, ?_⟩, rfl, rfl, ?_, ?_⟩
  · intro h hm w2 data
    have hf := hhandlers h hm
    simp only [coreTrigger]
    cases halk : alookup
        (deleteSubtreeRun fuel t parent r1 r2 reg rt w unm).1.eventHandlers h with
    | none => rfl
    | some v =>
      rw [amem, halk] at hf
      exact absurd hf (by simp)
  · intro w2 data
    simp [coreTrigger,
      show alookup c6Second.1.layout.eventHandlers "hA" = none from rfl]
  · intro w2 data
    simp [coreTrigger,
      show alookup c6Second.1.layout.eventHandlers "hB" = none from rfl]

/-- Witness: the general deletion statement applied to the concrete tree
`X → Y` (handler ids `h1`, `h2`) sitting under tracked parent `Q`. -/
theorem delete_element_state_completeness_witness :
    (deleteSubtreeRun 10 c6Tree (some "Q") c6Ctx [] c6Reg "Q" World.init true).2.2
      = none
    ∧ amem (deleteSubtreeRun 10 c6Tree (some "Q") c6Ctx [] c6Reg "Q" World.init
        true).1.elementState "Y" = false
    ∧ amem (deleteSubtreeRun 10 c6Tree (some "Q") c6Ctx [] c6Reg "Q" World.init
        true).1.eventHandlers "h2" = false := by
  obtain ⟨⟨h1, h2, h3, -⟩, -, -, -, -⟩ :=
    delete_element_state_completeness 10 c6Tree (some "Q") c6Ctx [] c6Reg "Q"
      World.init true (by decide) (by decide) (by decide) (by decide) (by decide)
      (by decide) (by decide)
      (by simp [parentCond, c6Tree, c6Ctx, STree.ids, STree.rootId,
        SForest.idsAll, alookup])
  exact ⟨h1, h2 "Y" (by decide), h3 "h2" (by decide)⟩

end Spec2Proof
